import Mathlib

/-!
Verification of the salary-analytics aggregation core.

The development shallowly embeds the statistics aggregation engine
(`stats.py`: `MeanRepresentation`, `Statistics._generate`, `Statistics.years`)
and the multiprocessing per-file reducer (`mp_stats.py`: `process_start`,
`main`).  Python numbers are modelled exactly: CPython `int` as `ℤ`/`ℕ` and
float arithmetic as exact rational arithmetic on an explicit fraction type
(`Frac`), with `int(·)` as truncation toward zero.  Python `dict` /
`defaultdict` (insertion-ordered) is modelled as an association list where a
fresh key is appended at the end.  Fallible operations (`int(str)` parsing,
dict lookup `KeyError`, indexing an empty list) are modelled with `Except`.
-/

/-- Exact fraction used to model Python float arithmetic.  The embedding keeps
all float computations exact (the real program incurs IEEE-754 rounding; every
concrete value used below is small enough that the double computation is exact
as well).  No normalization invariant is kept; all constructions used below
have a positive denominator. -/
structure Frac where
  num : ℤ
  den : ℕ
deriving DecidableEq

/-- `a + b` on fractions (cross multiplication, no normalization). -/
def Frac.add (a b : Frac) : Frac := ⟨a.num * b.den + b.num * a.den, a.den * b.den⟩

/-- `a * b` on fractions. -/
def Frac.mul (a b : Frac) : Frac := ⟨a.num * b.num, a.den * b.den⟩

/-- Division of a fraction by a natural number (the program only divides by
positive constants and positive counts). -/
def Frac.divNat (a : Frac) (n : ℕ) : Frac := ⟨a.num, a.den * n⟩

/-- Python `int(x)` on a float/fraction: truncation toward zero. -/
def Frac.trunc (a : Frac) : ℤ := a.num.tdiv a.den

/-- Boolean `a ≤ b` comparison by cross multiplication (valid for the positive
denominators maintained by the program). -/
def Frac.ble (a b : Frac) : Bool := decide (a.num * b.den ≤ b.num * a.den)

/-- Interpretation of a fraction as a mathematical rational. -/
def Frac.toRat (a : Frac) : ℚ := (a.num : ℚ) / (a.den : ℚ)

/-- Round-half-to-even of a fraction to an integer, the rounding used by
Python's builtin `round`. -/
def roundHalfEven (a : Frac) : ℤ :=
  let f := a.num.fdiv a.den
  let r := a.num - f * a.den
  if 2 * r < (a.den : ℤ) then f
  else if (a.den : ℤ) < 2 * r then f + 1
  else if f % 2 = 0 then f else f + 1

/-- Python `round(x, 4)`: round to 4 decimal places, ties to even.  (The real
program rounds an IEEE double; the decimal model is exact on the values
involved.) -/
def Frac.round4 (a : Frac) : Frac := ⟨roundHalfEven ⟨a.num * 10000, a.den⟩, 10000⟩

/-- Numeric value of a list of decimal digit characters. -/
def digitsVal (cs : List Char) : ℕ := cs.foldl (fun acc c => 10 * acc + (c.toNat - 48)) 0

/-- Parse a non-empty all-digit character list, else `none`. -/
def pyDigits? (cs : List Char) : Option ℕ :=
  if cs ≠ [] ∧ cs.all Char.isDigit then some (digitsVal cs) else none

/-- Python `int(s)` on a string: strip surrounding whitespace, optional sign,
then a non-empty run of decimal digits; anything else raises `ValueError`
(modelled as `none`).  (CPython additionally accepts `_` digit grouping,
which never occurs in the inputs considered here.) -/
def pyInt? (cs : List Char) : Option ℤ :=
  let t := ((cs.dropWhile Char.isWhitespace).reverse.dropWhile Char.isWhitespace).reverse
  match t with
  | '-' :: rest => (pyDigits? rest).map (fun n => -(n : ℤ))
  | '+' :: rest => (pyDigits? rest).map (fun n => (n : ℤ))
  | other => (pyDigits? other).map (fun n => (n : ℤ))

/-- Python `sub in s` on strings: ordinary substring containment
(case-sensitive; the empty string is contained in every string). -/
def pyIn (sub s : String) : Bool :=
  (List.range (s.data.length + 1)).any (fun i => sub.data.isPrefixOf (s.data.drop i))

/-- `MeanRepresentation` from `stats.py`: a running-mean accumulator holding
the sum of added elements and their count. -/
structure MeanRepresentation where
  sum : ℤ
  count : ℕ
deriving DecidableEq

/-- `MeanRepresentation.__init__`: sum 0, count 0. -/
def MeanRepresentation.empty : MeanRepresentation := ⟨0, 0⟩

/-- `MeanRepresentation.add`: `sum += num; count += 1`. -/
def MeanRepresentation.add (m : MeanRepresentation) (num : ℤ) : MeanRepresentation :=
  ⟨m.sum + num, m.count + 1⟩

/-- `MeanRepresentation.mean`: `0` when `count == 0`, else `sum / count`
(true division). -/
def MeanRepresentation.mean (m : MeanRepresentation) : Frac :=
  if m.count = 0 then ⟨0, 1⟩ else ⟨m.sum, m.count⟩

/-- `MeanRepresentation.__int__`: `int(self.mean())`. -/
def MeanRepresentation.toInt (m : MeanRepresentation) : ℤ := m.mean.trunc

/-- The static currency→ruble rate table `currency_to_rub` of `stats.py`
(decimal constants written as exact fractions). -/
def currency_to_rub : List (String × Frac) :=
  [("AZN", ⟨3568, 100⟩),
   ("BYR", ⟨2391, 100⟩),
   ("EUR", ⟨5990, 100⟩),
   ("GEL", ⟨2174, 100⟩),
   ("KGS", ⟨76, 100⟩),
   ("KZT", ⟨13, 100⟩),
   ("RUR", ⟨1, 1⟩),
   ("UAH", ⟨164, 100⟩),
   ("USD", ⟨6066, 100⟩),
   ("UZS", ⟨55, 10000⟩)]

/-- `Salary` from `stats.py` (the unused `salary_gross` flag is omitted: the
aggregation engine never reads it). -/
structure Salary where
  salary_from : Frac
  salary_to : Frac
  salary_currency : String
deriving DecidableEq

/-- `Vacancy` from `stats.py`. -/
structure Vacancy where
  name : String
  salary : Salary
  area_name : String
  published_at : String
deriving DecidableEq

/-- Errors that abort a reduction pass (`stats.py` raises `ValueError` /
`KeyError`; `mp_stats.py` additionally `IndexError` on an empty file). -/
inductive GenError where
  | malformedTimestamp (s : String)
  | unknownCurrency (c : String)
  | emptyFile
deriving DecidableEq

/-- `int(v.published_at[:4])` — Python slices the first (at most) four
characters and parses them as an integer. -/
def recordYear? (v : Vacancy) : Except GenError ℤ :=
  match pyInt? (v.published_at.data.take 4) with
  | some y => .ok y
  | none => .error (.malformedTimestamp v.published_at)

/-- `int((float(v.salary.salary_to) + float(v.salary.salary_from)) / 2 *
currency_to_rub[v.salary.salary_currency])` — a missing rate raises
`KeyError`. -/
def recordSalary? (v : Vacancy) : Except GenError ℤ :=
  match currency_to_rub.lookup v.salary.salary_currency with
  | some rate => .ok (((v.salary.salary_to.add v.salary.salary_from).divNat 2).mul rate).trunc
  | none => .error (.unknownCurrency v.salary.salary_currency)

/-- The data the `_generate` loop body extracts from one record: year and
converted salary (the two fallible computations), plus the fields read by the
pure dictionary updates. -/
structure Item where
  year : ℤ
  salary : ℤ
  name : String
  area_name : String
deriving DecidableEq

/-- Per-record parsing in loop order: year first, then salary; the first
failure aborts the pass. -/
def parseItem (v : Vacancy) : Except GenError Item := do
  let year ← recordYear? v
  let salary ← recordSalary? v
  .ok ⟨year, salary, v.name, v.area_name⟩

/-- Insertion-ordered dictionary update, the behavior of a Python
`defaultdict` bucket update `d[k] = f(d[k])`: an existing key is updated in
place, a fresh key is appended at the end holding `f default`. -/
def updA {K V : Type} [DecidableEq K] (k : K) (f : V → V) (dflt : V) :
    List (K × V) → List (K × V)
  | [] => [(k, f dflt)]
  | p :: rest => if p.1 = k then (k, f p.2) :: rest else p :: updA k f dflt rest

/-- Association-list lookup with decidable key equality (first match). -/
def lookupA {K V : Type} [DecidableEq K] (k : K) : List (K × V) → Option V
  | [] => none
  | p :: rest => if p.1 = k then some p.2 else lookupA k rest


/-- Insert `x` after every element `y` with `le y x` (stable insertion). -/
def insertS {α : Type} (le : α → α → Bool) (x : α) : List α → List α
  | [] => [x]
  | y :: ys => if le y x then y :: insertS le x ys else x :: y :: ys

/-- Python's `list.sort(key=..., reverse=...)` is a stable sort by a total
preorder `le`; a stable sort's output is uniquely determined, so it is
modelled by stable insertion sort (structurally recursive, hence
kernel-computable, unlike `List.mergeSort`). -/
def sortS {α : Type} (le : α → α → Bool) (l : List α) : List α :=
  l.foldl (fun acc x => insertS le x acc) []

/-- The six grouped accumulators of `Statistics._generate` before
post-processing. -/
structure GenState where
  salary_dynamic : List (ℤ × MeanRepresentation)
  salary_dynamic_filtered : List (ℤ × MeanRepresentation)
  count_dynamic : List (ℤ × ℕ)
  count_dynamic_filtered : List (ℤ × ℕ)
  city_counts : List (String × ℕ)
  city_salaries : List (String × MeanRepresentation)
deriving DecidableEq

/-- All six accumulators empty. -/
def GenState.empty : GenState := ⟨[], [], [], [], [], []⟩

/-- The pure body of the `_generate` loop: update the year dictionaries, the
filtered dictionaries when `name in v.name`, and the city dictionaries. -/
def applyItem (profession : String) (st : GenState) (it : Item) : GenState :=
  { st with
    count_dynamic := updA it.year (· + 1) 0 st.count_dynamic
    salary_dynamic := updA it.year (·.add it.salary) .empty st.salary_dynamic
    count_dynamic_filtered :=
      if pyIn profession it.name then updA it.year (· + 1) 0 st.count_dynamic_filtered
      else st.count_dynamic_filtered
    salary_dynamic_filtered :=
      if pyIn profession it.name then
        updA it.year (·.add it.salary) .empty st.salary_dynamic_filtered
      else st.salary_dynamic_filtered
    city_counts := updA it.area_name (· + 1) 0 st.city_counts
    city_salaries := updA it.area_name (·.add it.salary) .empty st.city_salaries }

/-- One iteration of the `_generate` loop. -/
def genStep (profession : String) (st : GenState) (v : Vacancy) : Except GenError GenState :=
  (parseItem v).map (applyItem profession st)

/-- The full `for v in dataset.vacancies_objects` loop of
`Statistics._generate`. -/
def genLoop (profession : String) (vs : List Vacancy) : Except GenError GenState :=
  vs.foldlM (genStep profession) GenState.empty

/-- The published aggregate snapshot (fields of the `Statistics` object after
`_generate` returns). -/
structure Statistics where
  salary_dynamic : List (ℤ × MeanRepresentation)
  count_dynamic : List (ℤ × ℕ)
  salary_dynamic_filtered : List (ℤ × MeanRepresentation)
  count_dynamic_filtered : List (ℤ × ℕ)
  city_salaries : List (String × MeanRepresentation)
  city_counts : List (String × Frac)
deriving DecidableEq

/-- The post-processing stage of `Statistics._generate` (everything after the
record loop), over a total record count `total = len(dataset.vacancies_objects)`:
threshold, allowed cities, the two city rankings, and the 2022 fallbacks. -/
def postProcess (total : ℕ) (st : GenState) : Statistics :=
  let one_percent : ℕ := total / 100
  let allowed_cities : List String :=
    (st.city_counts.filter (fun p => one_percent ≤ p.2)).map (·.1)
  let city_count_list₀ := sortS (fun a b => b.2 ≤ a.2) st.city_counts
  let city_count_list₁ := city_count_list₀.take 10
  let city_count_list := city_count_list₁.map (fun p => (p.1, Frac.round4 ⟨(p.2 : ℤ), total⟩))
  let city_counts := city_count_list.filter (fun p => allowed_cities.contains p.1)
  let city_salaries_list₀ := st.city_salaries.filter (fun p => allowed_cities.contains p.1)
  let city_salaries_list := sortS (fun a b => b.2.mean.ble a.2.mean) city_salaries_list₀
  let city_salaries := city_salaries_list.take 10
  let count_dynamic_filtered :=
    if st.count_dynamic_filtered.isEmpty then [((2022 : ℤ), 0)] else st.count_dynamic_filtered
  let salary_dynamic_filtered :=
    if st.salary_dynamic_filtered.isEmpty then [((2022 : ℤ), MeanRepresentation.empty)]
    else st.salary_dynamic_filtered
  ⟨st.salary_dynamic, st.count_dynamic, salary_dynamic_filtered, count_dynamic_filtered,
    city_salaries, city_counts⟩

/-- `Statistics.__init__` + `_generate`: run the loop over the dataset, then
post-process; any record error aborts the whole pass. -/
def Statistics.generate (vs : List Vacancy) (profession : String) : Except GenError Statistics :=
  (genLoop profession vs).map (postProcess vs.length)

/-- The `Statistics.years` property: the keys of `salary_dynamic`, in
dictionary (insertion) order. -/
def Statistics.years (s : Statistics) : List ℤ := s.salary_dynamic.map (·.1)

/-- Sequential effectful map over `Except`: left to right, first error wins
(the evaluation order of every per-record loop in the program). -/
def mapE {α β ε : Type} (f : α → Except ε β) : List α → Except ε (List β)
  | [] => .ok []
  | a :: l => do
    let b ← f a
    let bs ← mapE f l
    .ok (b :: bs)

/-- The tuple `(year, (int(avg_salary), int(avg_salary_filtered), count,
count_filtered))` that `process_start` of `mp_stats.py` puts on the queue for
one file. -/
structure FileSummary where
  year : ℤ
  avg_salary : ℤ
  avg_salary_filtered : ℤ
  count : ℕ
  count_filtered : ℕ
deriving DecidableEq

/-- The four running accumulators of the `process_start` per-file loop. -/
structure ShardAcc where
  avg_salary : MeanRepresentation
  avg_salary_filtered : MeanRepresentation
  count : ℕ
  count_filtered : ℕ
deriving DecidableEq

/-- Body of the `for v in dataset.vacancies_objects` loop in `process_start`:
only the salary is parsed per record (the year is taken from the first record
alone). -/
def shardStep (vac : String) (acc : ShardAcc) (v : Vacancy) : Except GenError ShardAcc := do
  let salary ← recordSalary? v
  .ok { avg_salary := acc.avg_salary.add salary
        avg_salary_filtered :=
          if pyIn vac v.name then acc.avg_salary_filtered.add salary
          else acc.avg_salary_filtered
        count := acc.count + 1
        count_filtered :=
          if pyIn vac v.name then acc.count_filtered + 1 else acc.count_filtered }

/-- `process_start` of `mp_stats.py` restricted to a single file: year of the
first record (`IndexError` on an empty file), one accumulator pass over the
records, then finalization `int(avg_salary)` / `int(avg_salary_filtered)`
for this file alone. -/
def process_start (vac : String) (file : List Vacancy) : Except GenError FileSummary :=
  match file with
  | [] => .error GenError.emptyFile
  | v :: rest => do
    let year ← recordYear? v
    let acc ← (v :: rest).foldlM (shardStep vac) ⟨.empty, .empty, 0, 0⟩
    .ok ⟨year, acc.avg_salary.toInt, acc.avg_salary_filtered.toInt, acc.count,
      acc.count_filtered⟩

/-- Python `dict(pairs)`: insertion-ordered, a repeated key keeps its first
position but takes the last value. -/
def pyDictInsert {K V : Type} [DecidableEq K] :
    List (K × V) → K × V → List (K × V)
  | [], p => [p]
  | q :: rest, p => if q.1 = p.1 then (q.1, p.2) :: rest else q :: pyDictInsert rest p

/-- `dict(l)` built pair by pair. -/
def pyDict {K V : Type} [DecidableEq K] (l : List (K × V)) : List (K × V) :=
  l.foldl pyDictInsert []

/-- The four year-indexed dictionaries printed by `main` of `mp_stats.py`. -/
structure MpResult where
  salary_dynamic : List (ℤ × ℤ)
  salary_dynamic_filtered : List (ℤ × ℤ)
  count_dynamic : List (ℤ × ℕ)
  count_dynamic_filtered : List (ℤ × ℕ)
deriving DecidableEq

/-- `main` of `mp_stats.py` over an already-listed file set: run
`process_start` on every file, gather the queue contents, sort them by year
(Python's stable sort), and build the four dictionaries.  The real queue
order is scheduler-dependent; the embedding takes the file-list order, one
admissible interleaving (`main` joins all workers before reading the queue,
and any worker failure crashes the run, modelled by the propagated error). -/
def mp_main (vac : String) (files : List (List Vacancy)) : Except GenError MpResult := do
  let results ← mapE (process_start vac) files
  let sorted := sortS (fun a b => a.year ≤ b.year) results
  .ok ⟨pyDict (sorted.map (fun r => (r.year, r.avg_salary))),
       pyDict (sorted.map (fun r => (r.year, r.avg_salary_filtered))),
       pyDict (sorted.map (fun r => (r.year, r.count))),
       pyDict (sorted.map (fun r => (r.year, r.count_filtered)))⟩

/-- Append a key at the end unless already present (order of first
occurrences). -/
def insertNew {K : Type} [DecidableEq K] (ks : List K) (k : K) : List K :=
  if k ∈ ks then ks else ks ++ [k]

/-- Keys of a stream, in order of first occurrence: the key order of a Python
insertion-ordered dictionary fed by the stream. -/
def firstSeenOrder {K : Type} [DecidableEq K] (l : List K) : List K :=
  l.foldl insertNew []

theorem mem_insertNew {K : Type} [DecidableEq K] {ks : List K} {a k : K} :
    a ∈ insertNew ks k ↔ a ∈ ks ∨ a = k := by
  unfold insertNew
  split
  · rename_i h
    constructor
    · exact Or.inl
    · rintro (h' | rfl) <;> assumption
  · simp [List.mem_append]

theorem insertNew_nodup {K : Type} [DecidableEq K] {ks : List K} (h : ks.Nodup) (k : K) :
    (insertNew ks k).Nodup := by
  unfold insertNew
  split
  · exact h
  · rename_i hk
    simp [List.nodup_append, h, hk]

theorem foldl_insertNew_mem {K : Type} [DecidableEq K] (l : List K) (acc : List K) (a : K) :
    a ∈ l.foldl insertNew acc ↔ a ∈ acc ∨ a ∈ l := by
  induction l generalizing acc with
  | nil => simp
  | cons k l ih =>
    rw [List.foldl_cons, ih, mem_insertNew]
    simp only [List.mem_cons]
    tauto

theorem foldl_insertNew_nodup {K : Type} [DecidableEq K] (l : List K) (acc : List K)
    (h : acc.Nodup) : (l.foldl insertNew acc).Nodup := by
  induction l generalizing acc with
  | nil => exact h
  | cons k l ih => exact ih _ (insertNew_nodup h k)

theorem firstSeenOrder_mem {K : Type} [DecidableEq K] {l : List K} {a : K} :
    a ∈ firstSeenOrder l ↔ a ∈ l := by
  unfold firstSeenOrder
  rw [foldl_insertNew_mem]
  simp

theorem firstSeenOrder_nodup {K : Type} [DecidableEq K] (l : List K) :
    (firstSeenOrder l).Nodup :=
  foldl_insertNew_nodup l [] List.nodup_nil

theorem updA_map_mem {K V : Type} [DecidableEq K] {ks : List K} {k : K}
    (g : K → V) (f : V → V) (d : V) (hk : k ∈ ks) (hnd : ks.Nodup) :
    updA k f d (ks.map (fun x => (x, g x))) =
      ks.map (fun x => (x, if x = k then f (g x) else g x)) := by
  induction ks with
  | nil => cases hk
  | cons x ks ih =>
    rcases List.nodup_cons.mp hnd with ⟨hx, hnd'⟩
    simp only [List.map_cons, updA]
    by_cases hxk : x = k
    · subst hxk
      rw [if_pos rfl, if_pos rfl]
      congr 1
      refine List.map_congr_left (fun y hy => ?_)
      have : y ≠ x := fun e => hx (e ▸ hy)
      simp [this]
    · rw [if_neg hxk, if_neg hxk,
        ih ((List.mem_cons.mp hk).resolve_left (fun e => hxk e.symm)) hnd']

theorem updA_map_notMem {K V : Type} [DecidableEq K] {ks : List K} {k : K}
    (g : K → V) (f : V → V) (d : V) (hk : k ∉ ks) :
    updA k f d (ks.map (fun x => (x, g x))) = ks.map (fun x => (x, g x)) ++ [(k, f d)] := by
  induction ks with
  | nil => rfl
  | cons x ks ih =>
    have hxk : x ≠ k := fun e => hk (e ▸ List.mem_cons_self x ks)
    simp only [List.map_cons, updA, if_neg hxk, List.cons_append]
    rw [ih (fun h => hk (List.mem_cons_of_mem _ h))]

/-- Full characterization of an insertion-ordered dictionary built by a fold
of per-item bucket updates: its entries are the first-seen keys, each paired
with the fold of the updates of the items having that key. -/
theorem foldl_updA_eq {K V I : Type} [DecidableEq K] (key : I → K) (upd : I → V → V) (d : V)
    (items : List I) :
    items.foldl (fun acc it => updA (key it) (upd it) d acc) [] =
      (firstSeenOrder (items.map key)).map
        (fun k => (k, (items.filter (fun it => decide (key it = k))).foldl
          (fun v it => upd it v) d)) := by
  induction items using List.reverseRecOn with
  | nil => simp [firstSeenOrder]
  | append_singleton l it ih =>
    rw [List.foldl_append, List.foldl_cons, List.foldl_nil, ih]
    have hfs : firstSeenOrder ((l ++ [it]).map key)
        = insertNew (firstSeenOrder (l.map key)) (key it) := by
      simp [firstSeenOrder, List.map_append, List.foldl_append]
    by_cases hmem : key it ∈ firstSeenOrder (l.map key)
    · rw [updA_map_mem _ _ _ hmem (firstSeenOrder_nodup _), hfs]
      unfold insertNew
      rw [if_pos hmem]
      refine List.map_congr_left (fun x hx => ?_)
      by_cases hxk : x = key it
      · subst hxk
        simp only [if_pos rfl, List.filter_append, List.foldl_append]
        simp
      · simp only [if_neg hxk, List.filter_append, List.foldl_append]
        have : ¬ (key it = x) := fun e => hxk e.symm
        simp [List.filter_cons, this]
    · rw [updA_map_notMem _ _ _ hmem, hfs]
      unfold insertNew
      rw [if_neg hmem]
      rw [List.map_append]
      congr 1
      · refine List.map_congr_left (fun x hx => ?_)
        have hxk : ¬ (key it = x) := fun e => hmem (e ▸ hx)
        simp [List.filter_append, List.filter_cons, hxk]
      · have hnil : l.filter (fun it' => decide (key it' = key it)) = [] := by
          rw [List.filter_eq_nil_iff]
          intro a ha
          simp only [decide_eq_true_eq]
          intro e
          exact hmem (firstSeenOrder_mem.mpr (List.mem_map.mpr ⟨a, ha, e⟩))
        simp [List.filter_append, List.filter_cons, hnil]

/-- A fold whose body is guarded by a per-item test equals the unguarded fold
over the filtered stream. -/
theorem foldl_ite_filter {A I : Type} (c : I → Bool) (g : A → I → A) (l : List I) (a : A) :
    l.foldl (fun acc it => if c it then g acc it else acc) a = (l.filter c).foldl g a := by
  induction l generalizing a with
  | nil => rfl
  | cons it l ih =>
    by_cases h : c it <;> simp [List.filter_cons, h, ih]

theorem exc_bind_ok {α β ε : Type} (a : α) (f : α → Except ε β) :
    (Except.ok a >>= f) = f a := rfl

theorem exc_bind_error {α β ε : Type} (e : ε) (f : α → Except ε β) :
    ((Except.error e : Except ε α) >>= f) = Except.error e := rfl

theorem exc_map_ok {α β ε : Type} (g : α → β) (a : α) :
    Except.map g (Except.ok a : Except ε α) = Except.ok (g a) := rfl

theorem exc_map_error {α β ε : Type} (g : α → β) (e : ε) :
    Except.map g (Except.error e : Except ε α) = Except.error e := rfl

theorem mapE_ok_iff {α β ε : Type} (f : α → Except ε β) (l : List α) (bs : List β) :
    mapE f l = .ok bs ↔ List.Forall₂ (fun a b => f a = .ok b) l bs := by
  induction l generalizing bs with
  | nil =>
    cases bs with
    | nil => simp [mapE]
    | cons b bs => simp [mapE]
  | cons a l ih =>
    cases hfa : f a with
    | error e =>
      simp only [mapE, hfa, Except.bind]
      constructor
      · intro h; cases h
      · intro h
        cases h with
        | cons hab _ => rw [hfa] at hab; cases hab
    | ok b =>
      cases hml : mapE f l with
      | error e =>
        simp only [mapE, hfa, hml, Except.bind]
        constructor
        · intro h
          cases h
        · intro h
          cases h with
          | cons hab htl =>
            rw [← ih] at htl
            rw [hml] at htl
            cases htl
      | ok cs =>
        simp only [mapE, hfa, hml, Except.bind]
        constructor
        · intro h
          cases h
          exact List.Forall₂.cons hfa ((ih cs).mp hml)
        · intro h
          cases bs with
          | nil => cases h
          | cons b' bs' =>
            cases h with
            | cons hab htl =>
              rw [hfa] at hab
              cases hab
              have := (ih bs').mpr htl
              rw [hml] at this
              cases this
              rfl

theorem mapE_error_of_mem {α β ε : Type} (f : α → Except ε β) {l : List α} {a : α}
    (ha : a ∈ l) (hfa : ∃ e, f a = .error e) : ∃ e, mapE f l = .error e := by
  induction l with
  | nil => cases ha
  | cons x l ih =>
    rcases List.mem_cons.mp ha with rfl | hmem
    · obtain ⟨e, he⟩ := hfa
      exact ⟨e, by simp [mapE, he, exc_bind_error]⟩
    · cases hfx : f x with
      | error e => exact ⟨e, by simp [mapE, hfx, exc_bind_error]⟩
      | ok b =>
        obtain ⟨e, he⟩ := ih hmem
        exact ⟨e, by simp [mapE, hfx, he, exc_bind_ok, exc_bind_error]⟩

/-- The `_generate` loop factors as: parse every record (first error aborts),
then pure insertion-ordered dictionary folding. -/
theorem genLoop_eq (profession : String) (vs : List Vacancy) :
    genLoop profession vs =
      (mapE parseItem vs).map (fun items => items.foldl (applyItem profession) GenState.empty) := by
  suffices h : ∀ st : GenState, vs.foldlM (genStep profession) st =
      (mapE parseItem vs).map (fun items => items.foldl (applyItem profession) st) from h _
  induction vs with
  | nil => intro st; rfl
  | cons v vs ih =>
    intro st
    cases hv : parseItem v with
    | error e =>
      simp [List.foldlM, mapE, hv, genStep, exc_bind_error, exc_map_error, Except.map]
    | ok it =>
      cases hml : mapE parseItem vs with
      | error e =>
        have h2 := ih (applyItem profession st it)
        rw [hml] at h2
        simp only [List.foldlM, mapE, hv, hml, genStep, exc_bind_ok, exc_bind_error,
          exc_map_ok, exc_map_error, Except.map] at h2 ⊢
        exact h2
      | ok items =>
        have h2 := ih (applyItem profession st it)
        rw [hml] at h2
        simp only [List.foldlM, mapE, hv, hml, genStep, exc_bind_ok, exc_bind_error,
          exc_map_ok, exc_map_error, Except.map] at h2 ⊢
        rw [h2]
        simp [List.foldl_cons]

theorem foldl_applyItem_count_dynamic (p : String) (items : List Item) (st : GenState) :
    (items.foldl (applyItem p) st).count_dynamic =
      items.foldl (fun acc it => updA it.year (· + 1) 0 acc) st.count_dynamic := by
  induction items generalizing st with
  | nil => rfl
  | cons it items ih => rw [List.foldl_cons, List.foldl_cons, ih]; rfl

theorem foldl_applyItem_salary_dynamic (p : String) (items : List Item) (st : GenState) :
    (items.foldl (applyItem p) st).salary_dynamic =
      items.foldl (fun acc it => updA it.year (·.add it.salary) .empty acc) st.salary_dynamic := by
  induction items generalizing st with
  | nil => rfl
  | cons it items ih => rw [List.foldl_cons, List.foldl_cons, ih]; rfl

theorem foldl_applyItem_city_counts (p : String) (items : List Item) (st : GenState) :
    (items.foldl (applyItem p) st).city_counts =
      items.foldl (fun acc it => updA it.area_name (· + 1) 0 acc) st.city_counts := by
  induction items generalizing st with
  | nil => rfl
  | cons it items ih => rw [List.foldl_cons, List.foldl_cons, ih]; rfl

theorem foldl_applyItem_city_salaries (p : String) (items : List Item) (st : GenState) :
    (items.foldl (applyItem p) st).city_salaries =
      items.foldl (fun acc it => updA it.area_name (·.add it.salary) .empty acc)
        st.city_salaries := by
  induction items generalizing st with
  | nil => rfl
  | cons it items ih => rw [List.foldl_cons, List.foldl_cons, ih]; rfl

theorem foldl_applyItem_count_dynamic_filtered (p : String) (items : List Item) (st : GenState) :
    (items.foldl (applyItem p) st).count_dynamic_filtered =
      (items.filter (fun it => pyIn p it.name)).foldl
        (fun acc it => updA it.year (· + 1) 0 acc) st.count_dynamic_filtered := by
  induction items generalizing st with
  | nil => rfl
  | cons it items ih =>
    rw [List.foldl_cons, ih, List.filter_cons]
    by_cases h : pyIn p it.name <;> simp [applyItem, h]

theorem foldl_applyItem_salary_dynamic_filtered (p : String) (items : List Item) (st : GenState) :
    (items.foldl (applyItem p) st).salary_dynamic_filtered =
      (items.filter (fun it => pyIn p it.name)).foldl
        (fun acc it => updA it.year (·.add it.salary) .empty acc)
        st.salary_dynamic_filtered := by
  induction items generalizing st with
  | nil => rfl
  | cons it items ih =>
    rw [List.foldl_cons, ih, List.filter_cons]
    by_cases h : pyIn p it.name <;> simp [applyItem, h]

/-- Folding `MeanRepresentation.add` accumulates the sum and the length. -/
theorem foldl_mean_add (xs : List ℤ) (m : MeanRepresentation) :
    xs.foldl MeanRepresentation.add m = ⟨m.sum + xs.sum, m.count + xs.length⟩ := by
  induction xs generalizing m with
  | nil => simp
  | cons x xs ih =>
    rw [List.foldl_cons, ih]
    simp [MeanRepresentation.add, Int.add_assoc, Nat.add_assoc, Nat.add_comm 1]

/-- Feeding a list of values into one fresh accumulator (steps 1-2 of the
aggregation for a single bucket). -/
def mFold (xs : List ℤ) : MeanRepresentation := xs.foldl MeanRepresentation.add .empty

theorem mFold_eq (xs : List ℤ) : mFold xs = ⟨xs.sum, xs.length⟩ := by
  simpa [mFold, MeanRepresentation.empty] using foldl_mean_add xs .empty

theorem lookupA_map_of_mem {K V : Type} [DecidableEq K] {ks : List K} {k : K}
    (g : K → V) (hk : k ∈ ks) :
    lookupA k (ks.map (fun x => (x, g x))) = some (g k) := by
  induction ks with
  | nil => cases hk
  | cons x ks ih =>
    by_cases hxk : x = k
    · subst hxk
      simp [lookupA]
    · rw [List.map_cons]
      simp only [lookupA, if_neg hxk]
      exact ih ((List.mem_cons.mp hk).resolve_left (fun e => hxk e.symm))

theorem lookupA_map_of_notMem {K V : Type} [DecidableEq K] {ks : List K} {k : K}
    (g : K → V) (hk : k ∉ ks) :
    lookupA k (ks.map (fun x => (x, g x))) = none := by
  induction ks with
  | nil => rfl
  | cons x ks ih =>
    have hxk : x ≠ k := fun e => hk (e ▸ List.mem_cons_self x ks)
    rw [List.map_cons]
    simp only [lookupA, if_neg hxk]
    exact ih (fun h => hk (List.mem_cons_of_mem _ h))

theorem foldl_count_length {I : Type} (l : List I) (a : ℕ) :
    l.foldl (fun n _ => n + 1) a = a + l.length := by
  induction l generalizing a with
  | nil => simp
  | cons x l ih => rw [List.foldl_cons, ih]; simp [Nat.add_assoc, Nat.add_comm 1]

theorem parseItem_ok_fields {v : Vacancy} {it : Item} (h : parseItem v = .ok it) :
    it.name = v.name ∧ it.area_name = v.area_name ∧
      recordYear? v = .ok it.year ∧ recordSalary? v = .ok it.salary := by
  unfold parseItem at h
  cases hy : recordYear? v with
  | error e => rw [hy] at h; simp [exc_bind_error] at h
  | ok y =>
    rw [hy] at h
    cases hs : recordSalary? v with
    | error e => rw [hs] at h; simp [exc_bind_ok, exc_bind_error] at h
    | ok s =>
      rw [hs] at h
      simp only [exc_bind_ok] at h
      cases h
      exact ⟨rfl, rfl, rfl, rfl⟩

theorem forall₂_mem_left {α β : Type} {R : α → β → Prop} {l₁ : List α} {l₂ : List β}
    (h : List.Forall₂ R l₁ l₂) {a : α} (ha : a ∈ l₁) : ∃ b ∈ l₂, R a b := by
  induction h with
  | nil => cases ha
  | cons hr htl ih =>
    rcases List.mem_cons.mp ha with rfl | hmem
    · exact ⟨_, List.mem_cons_self _ _, hr⟩
    · obtain ⟨b, hb, hab⟩ := ih hmem
      exact ⟨b, List.mem_cons_of_mem _ hb, hab⟩

theorem forall₂_filter_map {α β γ : Type} {R : α → β → Prop} {l₁ : List α} {l₂ : List β}
    (h : List.Forall₂ R l₁ l₂) (p : α → Bool) (q : β → Bool) (f : α → γ) (g : β → γ)
    (hpq : ∀ a b, R a b → p a = q b) (hfg : ∀ a b, R a b → p a = true → f a = g b) :
    (l₁.filter p).map f = (l₂.filter q).map g := by
  induction h with
  | nil => rfl
  | cons hr htl ih =>
    rename_i a b l₁' l₂'
    rw [List.filter_cons, List.filter_cons]
    have hq : q b = p a := (hpq _ _ hr).symm
    cases hp : p a with
    | false =>
      rw [hp] at hq
      simp only [hp, hq, Bool.false_eq_true, if_false]
      exact ih
    | true =>
      rw [hp] at hq
      simp only [hp, hq, if_true, List.map_cons]
      rw [hfg _ _ hr hp]
      congr 1

theorem forall₂_countP {α β : Type} {R : α → β → Prop} {l₁ : List α} {l₂ : List β}
    (h : List.Forall₂ R l₁ l₂) (p : α → Bool) (q : β → Bool)
    (hpq : ∀ a b, R a b → p a = q b) : l₁.countP p = l₂.countP q := by
  rw [List.countP_eq_length_filter, List.countP_eq_length_filter]
  have := forall₂_filter_map h p q (fun _ => ()) (fun _ => ()) hpq (fun _ _ _ _ => rfl)
  have hlen := congrArg List.length this
  simpa using hlen

theorem mapE_error_mem {α β ε : Type} (f : α → Except ε β) {l : List α} {e : ε}
    (h : mapE f l = .error e) : ∃ a ∈ l, f a = .error e := by
  induction l with
  | nil => simp [mapE] at h
  | cons x l ih =>
    cases hfx : f x with
    | error e' =>
      rw [mapE, hfx, exc_bind_error] at h
      cases h
      exact ⟨x, List.mem_cons_self _ _, hfx⟩
    | ok b =>
      rw [mapE, hfx, exc_bind_ok] at h
      cases hml : mapE f l with
      | error e' =>
        rw [hml, exc_bind_error] at h
        cases h
        obtain ⟨a, ha, hfa⟩ := ih hml
        exact ⟨a, List.mem_cons_of_mem _ ha, hfa⟩
      | ok bs => rw [hml, exc_bind_ok] at h; cases h

/-- Modelled from the spec: the merge combinator for `RunningMean`
accumulators described in §3 / §4.3 ("associative, commutative merge: sum the
sums, sum the counts").  The repository never implements this combinator —
`mp_stats.py` finalizes each file separately instead of merging — so the
operation itself is taken from the spec's words; the accumulator type and
`add` are the source's `MeanRepresentation`. -/
def MeanRepresentation.merge (a b : MeanRepresentation) : MeanRepresentation :=
  ⟨a.sum + b.sum, a.count + b.count⟩

theorem foldl_merge (l : List MeanRepresentation) (m : MeanRepresentation) :
    l.foldl MeanRepresentation.merge m =
      ⟨m.sum + (l.map (·.sum)).sum, m.count + (l.map (·.count)).sum⟩ := by
  induction l generalizing m with
  | nil => simp
  | cons x l ih =>
    rw [List.foldl_cons, ih]
    simp [MeanRepresentation.merge, Int.add_assoc, Nat.add_assoc]

theorem forall₂_mem_right {α β : Type} {R : α → β → Prop} {l₁ : List α} {l₂ : List β}
    (h : List.Forall₂ R l₁ l₂) {b : β} (hb : b ∈ l₂) : ∃ a ∈ l₁, R a b := by
  induction h with
  | nil => cases hb
  | cons hr htl ih =>
    rcases List.mem_cons.mp hb with rfl | hmem
    · exact ⟨_, List.mem_cons_self _ _, hr⟩
    · obtain ⟨a, ha, hab⟩ := ih hmem
      exact ⟨a, List.mem_cons_of_mem _ ha, hab⟩

/-- C5: merging `RunningMean` accumulators by summing sums and counts is
associative and commutative; folding the per-shard accumulators of any
sharding of a value stream reproduces exactly the accumulator of the whole
stream, and the accumulator is invariant under reordering of the stream. -/
theorem c5_merge_assoc_comm_partition :
    (∀ a b c : MeanRepresentation, (a.merge b).merge c = a.merge (b.merge c)) ∧
    (∀ a b : MeanRepresentation, a.merge b = b.merge a) ∧
    (∀ shards : List (List ℤ),
      (shards.map mFold).foldl MeanRepresentation.merge .empty = mFold shards.flatten) ∧
    (∀ xs ys : List ℤ, xs.Perm ys → mFold xs = mFold ys) := by
  refine ⟨?_, ?_, ?_, ?_⟩
  · intro a b c
    simp [MeanRepresentation.merge, Int.add_assoc, Nat.add_assoc]
  · intro a b
    simp [MeanRepresentation.merge, Int.add_comm, Nat.add_comm]
  · intro shards
    rw [foldl_merge, mFold_eq]
    simp only [List.map_map, MeanRepresentation.mk.injEq]
    refine ⟨?_, ?_⟩
    · simp only [MeanRepresentation.empty, zero_add]
      rw [List.sum_flatten]
      congr 1
      refine List.map_congr_left (fun s _ => ?_)
      simp [mFold_eq]
    · simp only [MeanRepresentation.empty, zero_add]
      rw [List.length_flatten]
      congr 1
      refine List.map_congr_left (fun s _ => ?_)
      simp [mFold_eq]
  · intro xs ys hperm
    rw [mFold_eq, mFold_eq, hperm.sum_eq, hperm.length_eq]

/-- C5 witness: the permutation clause applied at a concrete reordering. -/
theorem c5_merge_witness : mFold [(1 : ℤ), 2] = mFold [2, 1] :=
  c5_merge_assoc_comm_partition.2.2.2 [1, 2] [2, 1] (by decide)

/-- C6: when the profession filter matches no record, the published filtered
maps are exactly the fixed 2022 placeholders, and the placeholder accumulator
reports mean 0. -/
theorem c6_empty_filter_fallback (vs : List Vacancy) (p : String) (stats : Statistics)
    (hok : Statistics.generate vs p = .ok stats)
    (hnone : ∀ v ∈ vs, pyIn p v.name = false) :
    stats.count_dynamic_filtered = [(2022, 0)] ∧
    stats.salary_dynamic_filtered = [(2022, MeanRepresentation.empty)] ∧
    MeanRepresentation.empty.mean.toRat = 0 := by
  unfold Statistics.generate at hok
  rw [genLoop_eq] at hok
  cases hml : mapE parseItem vs with
  | error e => rw [hml] at hok; cases hok
  | ok items =>
    rw [hml] at hok
    simp only [Except.map] at hok
    cases hok
    have hitems : ∀ it ∈ items, pyIn p it.name = false := by
      intro it hit
      obtain ⟨v, hv, hparse⟩ := forall₂_mem_right ((mapE_ok_iff _ _ _).mp hml) hit
      rw [(parseItem_ok_fields hparse).1]
      exact hnone v hv
    have hfilter : items.filter (fun it => pyIn p it.name) = [] := by
      rw [List.filter_eq_nil_iff]
      intro it hit
      simp [hitems it hit]
    have hcdf : (items.foldl (applyItem p) GenState.empty).count_dynamic_filtered = [] := by
      rw [foldl_applyItem_count_dynamic_filtered, hfilter]
      rfl
    have hsdf : (items.foldl (applyItem p) GenState.empty).salary_dynamic_filtered = [] := by
      rw [foldl_applyItem_salary_dynamic_filtered, hfilter]
      rfl
    refine ⟨?_, ?_, ?_⟩
    · simp [postProcess, hcdf]
    · simp [postProcess, hsdf]
    · simp [MeanRepresentation.mean, MeanRepresentation.empty, Frac.toRat]

instance {ε α : Type} [DecidableEq ε] [DecidableEq α] : DecidableEq (Except ε α) := fun a b =>
  match a, b with
  | .ok a, .ok b =>
    if h : a = b then isTrue (by rw [h]) else isFalse (fun he => h (by cases he; rfl))
  | .error e, .error e' =>
    if h : e = e' then isTrue (by rw [h]) else isFalse (fun he => h (by cases he; rfl))
  | .ok _, .error _ => isFalse (fun he => by cases he)
  | .error _, .ok _ => isFalse (fun he => by cases he)

/-- The one-record dataset used to instantiate the empty-filter fallback. -/
def c6Input : List Vacancy :=
  [⟨"Dev", ⟨⟨100, 1⟩, ⟨100, 1⟩, "RUR"⟩, "Moscow", "2022-01-01"⟩]

/-- The aggregate the engine produces on `c6Input` with filter "Q". -/
def c6Stats : Statistics :=
  ⟨[(2022, ⟨100, 1⟩)], [(2022, 1)], [(2022, ⟨0, 0⟩)], [(2022, 0)],
    [("Moscow", ⟨100, 1⟩)], [("Moscow", ⟨10000, 10000⟩)]⟩

/-- C6 witness: a one-record dataset whose profession does not contain the
filter string. -/
theorem c6_empty_filter_witness :
    Statistics.generate c6Input "Q" = .ok c6Stats ∧
      c6Stats.count_dynamic_filtered = [(2022, 0)] ∧
      c6Stats.salary_dynamic_filtered = [(2022, MeanRepresentation.empty)] ∧
      MeanRepresentation.empty.mean.toRat = 0 :=
  ⟨by decide, c6_empty_filter_fallback c6Input "Q" c6Stats (by decide) (by decide)⟩

theorem postProcess_salary_dynamic (t : ℕ) (st : GenState) :
    (postProcess t st).salary_dynamic = st.salary_dynamic := rfl

theorem postProcess_count_dynamic (t : ℕ) (st : GenState) :
    (postProcess t st).count_dynamic = st.count_dynamic := rfl

theorem generate_ok_destruct {vs : List Vacancy} {p : String} {stats : Statistics}
    (hok : Statistics.generate vs p = .ok stats) :
    ∃ items, mapE parseItem vs = .ok items ∧
      stats = postProcess vs.length (items.foldl (applyItem p) GenState.empty) := by
  unfold Statistics.generate at hok
  rw [genLoop_eq] at hok
  cases hml : mapE parseItem vs with
  | error e => rw [hml] at hok; cases hok
  | ok items =>
    rw [hml, exc_map_ok] at hok
    cases hok
    exact ⟨items, rfl, rfl⟩

theorem state_count_dynamic (p : String) (items : List Item) :
    (items.foldl (applyItem p) GenState.empty).count_dynamic =
      (firstSeenOrder (items.map (·.year))).map
        (fun y => (y, (items.filter (fun it => decide (it.year = y))).length)) := by
  rw [foldl_applyItem_count_dynamic]
  have := foldl_updA_eq (fun it : Item => it.year) (fun _ n => n + 1) 0 items
  rw [show GenState.empty.count_dynamic = [] from rfl, this]
  refine List.map_congr_left (fun y _ => ?_)
  rw [foldl_count_length, Nat.zero_add]

theorem state_salary_dynamic (p : String) (items : List Item) :
    (items.foldl (applyItem p) GenState.empty).salary_dynamic =
      (firstSeenOrder (items.map (·.year))).map
        (fun y => (y, mFold ((items.filter (fun it => decide (it.year = y))).map (·.salary)))) := by
  rw [foldl_applyItem_salary_dynamic]
  have := foldl_updA_eq (fun it : Item => it.year)
    (fun it m => MeanRepresentation.add m it.salary) MeanRepresentation.empty items
  rw [show GenState.empty.salary_dynamic = [] from rfl, this]
  refine List.map_congr_left (fun y _ => ?_)
  rw [mFold, List.foldl_map]

theorem state_city_counts (p : String) (items : List Item) :
    (items.foldl (applyItem p) GenState.empty).city_counts =
      (firstSeenOrder (items.map (·.area_name))).map
        (fun c => (c, (items.filter (fun it => decide (it.area_name = c))).length)) := by
  rw [foldl_applyItem_city_counts]
  have := foldl_updA_eq (fun it : Item => it.area_name) (fun _ n => n + 1) 0 items
  rw [show GenState.empty.city_counts = [] from rfl, this]
  refine List.map_congr_left (fun c _ => ?_)
  rw [foldl_count_length, Nat.zero_add]

theorem state_city_salaries (p : String) (items : List Item) :
    (items.foldl (applyItem p) GenState.empty).city_salaries =
      (firstSeenOrder (items.map (·.area_name))).map
        (fun c => (c, mFold ((items.filter
          (fun it => decide (it.area_name = c))).map (·.salary)))) := by
  rw [foldl_applyItem_city_salaries]
  have := foldl_updA_eq (fun it : Item => it.area_name)
    (fun it m => MeanRepresentation.add m it.salary) MeanRepresentation.empty items
  rw [show GenState.empty.city_salaries = [] from rfl, this]
  refine List.map_congr_left (fun c _ => ?_)
  rw [mFold, List.foldl_map]

theorem state_count_dynamic_filtered (p : String) (items : List Item) :
    (items.foldl (applyItem p) GenState.empty).count_dynamic_filtered =
      (firstSeenOrder (((items.filter (fun it => pyIn p it.name))).map (·.year))).map
        (fun y => (y, ((items.filter (fun it => pyIn p it.name)).filter
          (fun it => decide (it.year = y))).length)) := by
  rw [foldl_applyItem_count_dynamic_filtered]
  have := foldl_updA_eq (fun it : Item => it.year) (fun _ n => n + 1) 0
    (items.filter (fun it => pyIn p it.name))
  rw [show GenState.empty.count_dynamic_filtered = [] from rfl, this]
  refine List.map_congr_left (fun y _ => ?_)
  rw [foldl_count_length, Nat.zero_add]

theorem state_salary_dynamic_filtered (p : String) (items : List Item) :
    (items.foldl (applyItem p) GenState.empty).salary_dynamic_filtered =
      (firstSeenOrder (((items.filter (fun it => pyIn p it.name))).map (·.year))).map
        (fun y => (y, mFold (((items.filter (fun it => pyIn p it.name)).filter
          (fun it => decide (it.year = y))).map (·.salary)))) := by
  rw [foldl_applyItem_salary_dynamic_filtered]
  have := foldl_updA_eq (fun it : Item => it.year)
    (fun it m => MeanRepresentation.add m it.salary) MeanRepresentation.empty
    (items.filter (fun it => pyIn p it.name))
  rw [show GenState.empty.salary_dynamic_filtered = [] from rfl, this]
  refine List.map_congr_left (fun y _ => ?_)
  rw [mFold, List.foldl_map]

theorem stats_years_eq {vs : List Vacancy} {p : String} {stats : Statistics}
    {items : List Item} (hok : Statistics.generate vs p = .ok stats)
    (hitems : mapE parseItem vs = .ok items) :
    stats.years = firstSeenOrder (items.map (·.year)) := by
  obtain ⟨items', hml, hstats⟩ := generate_ok_destruct hok
  rw [hitems] at hml
  cases hml
  subst hstats
  rw [Statistics.years, postProcess_salary_dynamic, state_salary_dynamic]
  induction firstSeenOrder (items.map (·.year)) with
  | nil => rfl
  | cons y ys ih => simpa using ih

/-- The two-record dataset (years seen in order 2015, 2010) used for the
years-view claims. -/
def c8Input : List Vacancy :=
  [⟨"a", ⟨⟨1, 1⟩, ⟨1, 1⟩, "RUR"⟩, "M", "2015-01-01"⟩,
   ⟨"b", ⟨⟨1, 1⟩, ⟨1, 1⟩, "RUR"⟩, "M", "2010-01-01"⟩]

/-- The aggregate produced on `c8Input` with filter "Q". -/
def c8Stats : Statistics :=
  ⟨[(2015, ⟨1, 1⟩), (2010, ⟨1, 1⟩)], [(2015, 1), (2010, 1)], [(2022, ⟨0, 0⟩)], [(2022, 0)],
    [("M", ⟨2, 2⟩)], [("M", ⟨10000, 10000⟩)]⟩

/-- C8 counterexample: on a dataset whose records carry year 2015 before year
2010, the published `years` view is `[2015, 2010]`, which is not in ascending
numerical order. -/
theorem c8_years_counterexample :
    (Statistics.generate c8Input "Q").map Statistics.years = .ok [2015, 2010] ∧
      ¬ List.Pairwise (fun a b : ℤ => a ≤ b) [2015, 2010] := by
  refine ⟨by decide, by decide⟩

/-- C8 amended: the published `years` view lists the year keys in order of
first appearance in the record sequence (dictionary insertion order), not
sorted ascending. -/
theorem c8_years_amended (vs : List Vacancy) (p : String) (stats : Statistics)
    (items : List Item) (hok : Statistics.generate vs p = .ok stats)
    (hitems : mapE parseItem vs = .ok items) :
    stats.years = firstSeenOrder (items.map (·.year)) :=
  stats_years_eq hok hitems

/-- C8 witness: the amended statement instantiated on `c8Input`. -/
theorem c8_years_witness :
    c8Stats.years = firstSeenOrder (([(⟨2015, 1, "a", "M"⟩ : Item),
      ⟨2010, 1, "b", "M"⟩]).map (·.year)) :=
  c8_years_amended c8Input "Q" c8Stats [⟨2015, 1, "a", "M"⟩, ⟨2010, 1, "b", "M"⟩]
    (by decide) (by decide)

/-- C9 counterexample: a record whose published-date field is the 3-character
numeric string "202" does not abort the pass — the claim says it must — and
silently produces year bucket 202. -/
theorem c9_short_timestamp_counterexample :
    (Statistics.generate [⟨"a", ⟨⟨1, 1⟩, ⟨1, 1⟩, "RUR"⟩, "M", "202"⟩] "Q").map Statistics.years
        = .ok [202] ∧ ("202" : String).data.length < 4 := by
  refine ⟨by decide, by decide⟩

/-- C9 amended: the pass aborts exactly when the (at most 4-character) prefix
of the published date does not parse as a Python integer; when it parses to
`y` — in particular for any 4-digit year prefix, but also for shorter
all-digit strings — the record lands in published year bucket `y`. -/
theorem c9_timestamp_amended (vs : List Vacancy) (p : String) (v : Vacancy) (hv : v ∈ vs) :
    (pyInt? (v.published_at.data.take 4) = none →
      ∃ e, Statistics.generate vs p = .error e) ∧
    (∀ y : ℤ, pyInt? (v.published_at.data.take 4) = some y →
      ∀ stats : Statistics, Statistics.generate vs p = .ok stats →
        y ∈ stats.years ∧ ∃ n, lookupA y stats.count_dynamic = some n ∧ 1 ≤ n) := by
  constructor
  · intro hnone
    have hyear : recordYear? v = .error (.malformedTimestamp v.published_at) := by
      rw [recordYear?, hnone]
    have hparse : parseItem v = .error (.malformedTimestamp v.published_at) := by
      rw [parseItem, hyear, exc_bind_error]
    obtain ⟨e, he⟩ := mapE_error_of_mem parseItem hv ⟨_, hparse⟩
    refine ⟨e, ?_⟩
    unfold Statistics.generate
    rw [genLoop_eq, he, exc_map_error, exc_map_error]
  · intro y hy stats hok
    obtain ⟨items, hitems, hstats⟩ := generate_ok_destruct hok
    obtain ⟨it, hit, hparse⟩ := forall₂_mem_left ((mapE_ok_iff _ _ _).mp hitems) hv
    obtain ⟨-, -, hyear, -⟩ := parseItem_ok_fields hparse
    have hyv : recordYear? v = .ok y := by rw [recordYear?, hy]
    rw [hyv] at hyear
    cases hyear
    have hyears := stats_years_eq hok hitems
    constructor
    · rw [hyears, firstSeenOrder_mem]
      exact List.mem_map.mpr ⟨it, hit, rfl⟩
    · subst hstats
      rw [postProcess_count_dynamic, state_count_dynamic]
      rw [lookupA_map_of_mem _ (firstSeenOrder_mem.mpr (List.mem_map.mpr ⟨it, hit, rfl⟩))]
      refine ⟨_, rfl, ?_⟩
      have hmem : it ∈ items.filter (fun it' => decide (it'.year = it.year)) :=
        List.mem_filter.mpr ⟨hit, by simp⟩
      exact Nat.succ_le_of_lt (List.length_pos.mpr (fun hnil => by rw [hnil] at hmem; cases hmem))

/-- C9 witness: the parse-success clause of the amended statement at the
concrete record with published date "202". -/
theorem c9_timestamp_witness :
    (202 : ℤ) ∈ (⟨[(202, ⟨1, 1⟩)], [(202, 1)], [(2022, ⟨0, 0⟩)], [(2022, 0)],
        [("M", ⟨1, 1⟩)], [("M", ⟨10000, 10000⟩)]⟩ : Statistics).years ∧
      ∃ n, lookupA (202 : ℤ) ([( (202 : ℤ), 1)]) = some n ∧ 1 ≤ n :=
  (c9_timestamp_amended [⟨"a", ⟨⟨1, 1⟩, ⟨1, 1⟩, "RUR"⟩, "M", "202"⟩] "Q"
      ⟨"a", ⟨⟨1, 1⟩, ⟨1, 1⟩, "RUR"⟩, "M", "202"⟩ (by decide)).2 202 (by decide)
    ⟨[(202, ⟨1, 1⟩)], [(202, 1)], [(2022, ⟨0, 0⟩)], [(2022, 0)],
        [("M", ⟨1, 1⟩)], [("M", ⟨10000, 10000⟩)]⟩ (by decide)

/-- Discriminator for the `UnknownCurrency` error shape. -/
def GenError.isUnknownCurrency : GenError → Bool
  | .unknownCurrency _ => true
  | _ => false

/-- C10 counterexample: a sequence containing an unknown-currency record can
fail with a `MalformedTimestamp` error instead of `UnknownCurrency` when an
earlier record has an unparsable date. -/
theorem c10_unknown_currency_counterexample :
    Statistics.generate
        [⟨"a", ⟨⟨1, 1⟩, ⟨1, 1⟩, "RUR"⟩, "M", "xxxx"⟩,
         ⟨"b", ⟨⟨1, 1⟩, ⟨1, 1⟩, "XYZ"⟩, "M", "2020-01-01"⟩] "Q"
      = .error (.malformedTimestamp "xxxx") ∧
    currency_to_rub.lookup "XYZ" = none ∧
    (GenError.malformedTimestamp "xxxx").isUnknownCurrency = false := by
  refine ⟨by decide, by decide, by decide⟩

/-- C10 amended: an unknown-currency record always aborts the whole pass (no
skip, no aggregate is produced), and the reported error is `UnknownCurrency`
whenever every record's published-date prefix parses (an earlier malformed
timestamp may win otherwise). -/
theorem c10_unknown_currency_amended (vs : List Vacancy) (p : String) (v : Vacancy)
    (hv : v ∈ vs) (hcur : currency_to_rub.lookup v.salary.salary_currency = none) :
    (∃ e, Statistics.generate vs p = .error e) ∧
    ((∀ w ∈ vs, (pyInt? (w.published_at.data.take 4)).isSome = true) →
      ∃ c, Statistics.generate vs p = .error (.unknownCurrency c)) := by
  have hsal : recordSalary? v = .error (.unknownCurrency v.salary.salary_currency) := by
    rw [recordSalary?, hcur]
  have hparse : ∃ e, parseItem v = .error e := by
    cases hy : recordYear? v with
    | error e => exact ⟨e, by rw [parseItem, hy, exc_bind_error]⟩
    | ok y =>
      exact ⟨_, by rw [parseItem, hy, exc_bind_ok, hsal, exc_bind_error]⟩
  obtain ⟨e, he⟩ := mapE_error_of_mem parseItem hv hparse
  have hgen : Statistics.generate vs p = .error e := by
    unfold Statistics.generate
    rw [genLoop_eq, he, exc_map_error, exc_map_error]
  refine ⟨⟨e, hgen⟩, ?_⟩
  intro hyears
  obtain ⟨w, hw, hwe⟩ := mapE_error_mem parseItem he
  have hycases : ∃ y, recordYear? w = .ok y := by
    have := hyears w hw
    cases hp : pyInt? (w.published_at.data.take 4) with
    | none => rw [hp] at this; cases this
    | some y => exact ⟨y, by rw [recordYear?, hp]⟩
  obtain ⟨y, hwy⟩ := hycases
  rw [parseItem, hwy, exc_bind_ok] at hwe
  cases hws : recordSalary? w with
  | ok s => rw [hws, exc_bind_ok] at hwe; cases hwe
  | error e' =>
    rw [hws, exc_bind_error] at hwe
    cases hwe
    have : e = .unknownCurrency w.salary.salary_currency := by
      rw [recordSalary?] at hws
      cases hlk : currency_to_rub.lookup w.salary.salary_currency with
      | some r => rw [hlk] at hws; cases hws
      | none => rw [hlk] at hws; cases hws; rfl
    exact ⟨w.salary.salary_currency, by rw [← this]; exact hgen⟩

/-- C10 witness: a single unknown-currency record with a well-formed
timestamp aborts the pass with `UnknownCurrency`. -/
theorem c10_unknown_currency_witness :
    ∃ c, Statistics.generate [⟨"b", ⟨⟨1, 1⟩, ⟨1, 1⟩, "XYZ"⟩, "M", "2020-01-01"⟩] "Q"
        = .error (.unknownCurrency c) :=
  (c10_unknown_currency_amended [⟨"b", ⟨⟨1, 1⟩, ⟨1, 1⟩, "XYZ"⟩, "M", "2020-01-01"⟩] "Q"
      ⟨"b", ⟨⟨1, 1⟩, ⟨1, 1⟩, "XYZ"⟩, "M", "2020-01-01"⟩ (by decide) (by decide)).2
    (by decide)

theorem postProcess_cdf (t : ℕ) (st : GenState) :
    (postProcess t st).count_dynamic_filtered =
      if st.count_dynamic_filtered.isEmpty then [((2022 : ℤ), 0)]
      else st.count_dynamic_filtered := rfl

theorem postProcess_sdf (t : ℕ) (st : GenState) :
    (postProcess t st).salary_dynamic_filtered =
      if st.salary_dynamic_filtered.isEmpty then [((2022 : ℤ), MeanRepresentation.empty)]
      else st.salary_dynamic_filtered := rfl

theorem forall₂_forall₂_map {α β γ : Type} {R : α → β → Prop} {S : α → γ → Prop}
    {l : List α} {l₁ : List β} {l₂ : List γ}
    (h₁ : List.Forall₂ R l l₁) (h₂ : List.Forall₂ S l l₂) (f : β → γ)
    (hfs : ∀ a b c, R a b → S a c → f b = c) : l₁.map f = l₂ := by
  induction h₁ generalizing l₂ with
  | nil => cases h₂; rfl
  | cons hr htl ih =>
    cases h₂ with
    | cons hs htl' =>
      rw [List.map_cons, hfs _ _ _ hr hs, ih htl']

/-- The spec's per-record converted salary (§4.1, §8): the arithmetic mean of
the salary bounds times the static reference rate, with no truncation.  Used
to state the claimed mean property against the code's behavior. -/
def convertedSalaryExact (v : Vacancy) : Option ℚ :=
  (currency_to_rub.lookup v.salary.salary_currency).map
    (fun rate => (v.salary.salary_to.toRat + v.salary.salary_from.toRat) / 2 * rate.toRat)

/-- C4 counterexample: a single record with salary bounds 0 and 1 in the
reference currency has exact converted salary 1/2, but the engine truncates
each record's salary to an integer before accumulating, so the reported mean
is 0, not 1/2 — a gap far beyond floating-point rounding tolerance. -/
theorem c4_mean_counterexample :
    (Statistics.generate [⟨"a", ⟨⟨0, 1⟩, ⟨1, 1⟩, "RUR"⟩, "M", "2020-01-01"⟩] "Q").map
        (fun s => (lookupA 2020 s.salary_dynamic).map (fun m => m.mean.toRat))
      = .ok (some 0) ∧
    convertedSalaryExact ⟨"a", ⟨⟨0, 1⟩, ⟨1, 1⟩, "RUR"⟩, "M", "2020-01-01"⟩ = some (1 / 2) ∧
    (0 : ℚ) ≠ 1 / 2 := by
  refine ⟨?_, ?_, by norm_num⟩
  · have hgen : Statistics.generate [⟨"a", ⟨⟨0, 1⟩, ⟨1, 1⟩, "RUR"⟩, "M", "2020-01-01"⟩] "Q"
        = .ok ⟨[(2020, ⟨0, 1⟩)], [(2020, 1)], [(2022, ⟨0, 0⟩)], [(2022, 0)],
          [("M", ⟨0, 1⟩)], [("M", ⟨10000, 10000⟩)]⟩ := by decide
    rw [hgen, exc_map_ok]
    have hl : lookupA (2020 : ℤ)
        ([(2020, (⟨0, 1⟩ : MeanRepresentation))]) = some ⟨0, 1⟩ := by decide
    rw [show (⟨[(2020, ⟨0, 1⟩)], [(2020, 1)], [(2022, ⟨0, 0⟩)], [(2022, 0)],
          [("M", ⟨0, 1⟩)], [("M", ⟨10000, 10000⟩)]⟩ : Statistics).salary_dynamic
        = [(2020, ⟨0, 1⟩)] from rfl, hl]
    simp [MeanRepresentation.mean, Frac.toRat]
  · rw [convertedSalaryExact]
    have hlk : currency_to_rub.lookup "RUR" = some ⟨1, 1⟩ := by decide
    rw [show (⟨"a", ⟨⟨0, 1⟩, ⟨1, 1⟩, "RUR"⟩, "M",
        "2020-01-01"⟩ : Vacancy).salary.salary_currency = "RUR" from rfl, hlk]
    simp only [Option.map]
    rw [Option.some.injEq]
    simp [Frac.toRat]

/-- C4 amended: for a non-empty sequence of records of one year, none
matching the filter, the reported mean for that year is the arithmetic mean
of the per-record converted salaries EACH TRUNCATED to an integer
(`int((to + from) / 2 * rate)`), exactly — not the mean of the untruncated
conversions. -/
theorem c4_mean_amended (vs : List Vacancy) (p : String) (y : ℤ) (stats : Statistics)
    (sals : List ℤ) (hne : vs ≠ [])
    (hyear : ∀ v ∈ vs, recordYear? v = .ok y)
    (hnomatch : ∀ v ∈ vs, pyIn p v.name = false)
    (hsals : mapE recordSalary? vs = .ok sals)
    (hok : Statistics.generate vs p = .ok stats) :
    ∃ m, lookupA y stats.salary_dynamic = some m ∧
      m.mean.toRat = (sals.sum : ℚ) / (vs.length : ℚ) := by
  obtain ⟨items, hitems, hstats⟩ := generate_ok_destruct hok
  have h2 := (mapE_ok_iff _ _ _).mp hitems
  have h3 := (mapE_ok_iff _ _ _).mp hsals
  have hsalmap : items.map (·.salary) = sals := by
    refine forall₂_forall₂_map h2 h3 _ (fun v it s hvit hvs => ?_)
    have := (parseItem_ok_fields hvit).2.2.2
    rw [hvs] at this
    cases this
    rfl
  have hyitems : ∀ it ∈ items, it.year = y := by
    intro it hit
    obtain ⟨v, hv, hvit⟩ := forall₂_mem_right h2 hit
    have := (parseItem_ok_fields hvit).2.2.1
    rw [hyear v hv] at this
    cases this
    rfl
  have hitems_ne : items ≠ [] := by
    intro h
    subst h
    cases h2
    exact hne rfl
  have hykey : y ∈ firstSeenOrder (items.map (·.year)) := by
    rw [firstSeenOrder_mem]
    cases items with
    | nil => exact absurd rfl hitems_ne
    | cons it its => exact List.mem_map.mpr ⟨it, List.mem_cons_self _ _,
        hyitems it (List.mem_cons_self _ _)⟩
  have hfilter : items.filter (fun it => decide (it.year = y)) = items :=
    List.filter_eq_self.mpr (fun it hit => by simp [hyitems it hit])
  subst hstats
  rw [postProcess_salary_dynamic, state_salary_dynamic, lookupA_map_of_mem _ hykey, hfilter,
    hsalmap]
  refine ⟨_, rfl, ?_⟩
  have hlen : vs.length = sals.length := by
    rw [h2.length_eq, ← hsalmap, List.length_map]
  have hlen0 : sals.length ≠ 0 := by
    rw [← hlen]
    intro h
    exact hne (List.length_eq_zero.mp h)
  rw [mFold_eq]
  rw [MeanRepresentation.mean]
  simp only [hlen0, if_false]
  rw [Frac.toRat, hlen]

/-- C4 witness: two records of year 2020 with converted salaries 100 and 200;
the reported mean is 150. -/
theorem c4_mean_witness :
    ∃ m, lookupA (2020 : ℤ) (⟨[(2020, ⟨300, 2⟩)], [(2020, 2)], [(2022, ⟨0, 0⟩)], [(2022, 0)],
        [("M", ⟨300, 2⟩)], [("M", ⟨10000, 10000⟩)]⟩ : Statistics).salary_dynamic = some m ∧
      m.mean.toRat = (([100, 200] : List ℤ).sum : ℚ) /
        (([⟨"a", ⟨⟨100, 1⟩, ⟨100, 1⟩, "RUR"⟩, "M", "2020-01-01"⟩,
           ⟨"b", ⟨⟨200, 1⟩, ⟨200, 1⟩, "RUR"⟩, "M", "2020-02-02"⟩] : List Vacancy).length : ℚ) :=
  c4_mean_amended
    [⟨"a", ⟨⟨100, 1⟩, ⟨100, 1⟩, "RUR"⟩, "M", "2020-01-01"⟩,
     ⟨"b", ⟨⟨200, 1⟩, ⟨200, 1⟩, "RUR"⟩, "M", "2020-02-02"⟩] "Q" 2020
    ⟨[(2020, ⟨300, 2⟩)], [(2020, 2)], [(2022, ⟨0, 0⟩)], [(2022, 0)],
      [("M", ⟨300, 2⟩)], [("M", ⟨10000, 10000⟩)]⟩ [100, 200]
    (by decide) (by decide) (by decide) (by decide) (by decide)

/-- The converted salary of a record whose currency is known (0 otherwise);
under parse success it is the value the engine accumulates. -/
def recordSalaryD (v : Vacancy) : ℤ :=
  match recordSalary? v with
  | .ok s => s
  | .error _ => 0

/-- C7: with at least one record of year `y` matching the filter substring,
`filteredCountByYear[y]` counts exactly the year-`y` records whose profession
name contains the substring; the filtered salary accumulator for `y` likewise
contains exactly the matching records (count and sum), and the unfiltered
count for `y` still counts every year-`y` record. -/
theorem c7_filter_correctness (vs : List Vacancy) (p : String) (y : ℤ) (stats : Statistics)
    (hok : Statistics.generate vs p = .ok stats)
    (hmatch : ∃ v ∈ vs, pyIn p v.name = true ∧ recordYear? v = .ok y) :
    lookupA y stats.count_dynamic_filtered =
      some (vs.countP (fun v => pyIn p v.name && decide (recordYear? v = .ok y))) ∧
    (∃ m, lookupA y stats.salary_dynamic_filtered = some m ∧
      m.count = vs.countP (fun v => pyIn p v.name && decide (recordYear? v = .ok y)) ∧
      m.sum = ((vs.filter (fun v => pyIn p v.name && decide (recordYear? v = .ok y))).map
        recordSalaryD).sum) ∧
    lookupA y stats.count_dynamic =
      some (vs.countP (fun v => decide (recordYear? v = .ok y))) := by
  obtain ⟨items, hitems, hstats⟩ := generate_ok_destruct hok
  have h2 := (mapE_ok_iff _ _ _).mp hitems
  obtain ⟨v₀, hv₀, hv₀p, hv₀y⟩ := hmatch
  obtain ⟨it₀, hit₀, hvit₀⟩ := forall₂_mem_left h2 hv₀
  obtain ⟨hn₀, -, hy₀, -⟩ := parseItem_ok_fields hvit₀
  rw [hv₀y] at hy₀
  cases hy₀
  have hit₀p : pyIn p it₀.name = true := by rw [hn₀]; exact hv₀p
  have hpq : ∀ (v : Vacancy) (it : Item), parseItem v = .ok it →
      (pyIn p v.name && decide (recordYear? v = .ok it₀.year))
        = (decide (it.year = it₀.year) && pyIn p it.name) := by
    intro v it hvit
    obtain ⟨hn, -, hy, -⟩ := parseItem_ok_fields hvit
    rw [hn, hy, Bool.and_comm]
    congr 1
    simp [Except.ok.injEq]
  have hpq' : ∀ (v : Vacancy) (it : Item), parseItem v = .ok it →
      (decide (recordYear? v = .ok it₀.year) : Bool) = decide (it.year = it₀.year) := by
    intro v it hvit
    obtain ⟨-, -, hy, -⟩ := parseItem_ok_fields hvit
    rw [hy]
    simp [Except.ok.injEq]
  have hit₀mem : it₀ ∈ items.filter (fun it => pyIn p it.name) :=
    List.mem_filter.mpr ⟨hit₀, hit₀p⟩
  have hykeyf : it₀.year ∈ firstSeenOrder ((items.filter (fun it => pyIn p it.name)).map
      (·.year)) := by
    rw [firstSeenOrder_mem]
    exact List.mem_map.mpr ⟨it₀, hit₀mem, rfl⟩
  have hykey : it₀.year ∈ firstSeenOrder (items.map (·.year)) := by
    rw [firstSeenOrder_mem]
    exact List.mem_map.mpr ⟨it₀, hit₀, rfl⟩
  have hcount : ((items.filter (fun it => pyIn p it.name)).filter
        (fun it => decide (it.year = it₀.year))).length
      = vs.countP (fun v => pyIn p v.name && decide (recordYear? v = .ok it₀.year)) := by
    rw [List.filter_filter, ← List.countP_eq_length_filter]
    exact (forall₂_countP h2 _ _ (fun v it hvit => hpq v it hvit)).symm
  have hsum : ((items.filter (fun it => pyIn p it.name)).filter
        (fun it => decide (it.year = it₀.year))).map (·.salary)
      = (vs.filter (fun v => pyIn p v.name && decide (recordYear? v = .ok it₀.year))).map
          recordSalaryD := by
    rw [List.filter_filter]
    refine (forall₂_filter_map h2 _ _ recordSalaryD (·.salary)
      (fun v it hvit => hpq v it hvit) (fun v it hvit _ => ?_)).symm
    have := (parseItem_ok_fields hvit).2.2.2
    rw [recordSalaryD, this]
  subst hstats
  have hstate := state_count_dynamic_filtered p items
  have hcdfne : ((items.foldl (applyItem p) GenState.empty).count_dynamic_filtered).isEmpty
      = false := by
    rw [hstate]
    rcases hfs : firstSeenOrder ((items.filter (fun it => pyIn p it.name)).map (·.year)) with
      _ | ⟨k, ks⟩
    · rw [hfs] at hykeyf; cases hykeyf
    · rw [hfs]; rfl
  have hsdfne : ((items.foldl (applyItem p) GenState.empty).salary_dynamic_filtered).isEmpty
      = false := by
    rw [state_salary_dynamic_filtered]
    rcases hfs : firstSeenOrder ((items.filter (fun it => pyIn p it.name)).map (·.year)) with
      _ | ⟨k, ks⟩
    · rw [hfs] at hykeyf; cases hykeyf
    · rw [hfs]; rfl
  refine ⟨?_, ?_, ?_⟩
  · rw [postProcess_cdf, hcdfne, if_neg (by simp), hstate, lookupA_map_of_mem _ hykeyf, hcount]
  · rw [postProcess_sdf, hsdfne, if_neg (by simp), state_salary_dynamic_filtered,
      lookupA_map_of_mem _ hykeyf]
    refine ⟨_, rfl, ?_, ?_⟩
    · rw [mFold_eq]
      simp only [List.length_map]
      exact hcount
    · rw [mFold_eq]
      simp only
      rw [hsum]
  · rw [postProcess_count_dynamic, state_count_dynamic, lookupA_map_of_mem _ hykey,
      ← List.countP_eq_length_filter]
    rw [forall₂_countP h2 _ _ (fun v it hvit => hpq' v it hvit)]

/-- C7 witness: three records, two of year 2020 (one matching "An"), one
matching record of year 2021. -/
theorem c7_filter_witness :
    lookupA (2020 : ℤ) ([((2020 : ℤ), 1), (2021, 1)])
      = some (([⟨"Analyst", ⟨⟨100, 1⟩, ⟨100, 1⟩, "RUR"⟩, "M", "2020-01-01"⟩,
          ⟨"Dev", ⟨⟨200, 1⟩, ⟨200, 1⟩, "RUR"⟩, "M", "2020-02-02"⟩,
          ⟨"Analyst", ⟨⟨50, 1⟩, ⟨50, 1⟩, "RUR"⟩, "P", "2021-02-02"⟩] : List Vacancy).countP
        (fun v => pyIn "An" v.name && decide (recordYear? v = .ok 2020))) ∧
    (∃ m, lookupA (2020 : ℤ) ([((2020 : ℤ), (⟨100, 1⟩ : MeanRepresentation)), (2021, ⟨50, 1⟩)])
        = some m ∧
      m.count = ([⟨"Analyst", ⟨⟨100, 1⟩, ⟨100, 1⟩, "RUR"⟩, "M", "2020-01-01"⟩,
          ⟨"Dev", ⟨⟨200, 1⟩, ⟨200, 1⟩, "RUR"⟩, "M", "2020-02-02"⟩,
          ⟨"Analyst", ⟨⟨50, 1⟩, ⟨50, 1⟩, "RUR"⟩, "P", "2021-02-02"⟩] : List Vacancy).countP
        (fun v => pyIn "An" v.name && decide (recordYear? v = .ok 2020)) ∧
      m.sum = ((([⟨"Analyst", ⟨⟨100, 1⟩, ⟨100, 1⟩, "RUR"⟩, "M", "2020-01-01"⟩,
          ⟨"Dev", ⟨⟨200, 1⟩, ⟨200, 1⟩, "RUR"⟩, "M", "2020-02-02"⟩,
          ⟨"Analyst", ⟨⟨50, 1⟩, ⟨50, 1⟩, "RUR"⟩, "P", "2021-02-02"⟩] : List Vacancy).filter
        (fun v => pyIn "An" v.name && decide (recordYear? v = .ok 2020))).map
          recordSalaryD).sum) ∧
    lookupA (2020 : ℤ) ([((2020 : ℤ), 2), (2021, 1)])
      = some (([⟨"Analyst", ⟨⟨100, 1⟩, ⟨100, 1⟩, "RUR"⟩, "M", "2020-01-01"⟩,
          ⟨"Dev", ⟨⟨200, 1⟩, ⟨200, 1⟩, "RUR"⟩, "M", "2020-02-02"⟩,
          ⟨"Analyst", ⟨⟨50, 1⟩, ⟨50, 1⟩, "RUR"⟩, "P", "2021-02-02"⟩] : List Vacancy).countP
        (fun v => decide (recordYear? v = .ok 2020))) :=
  c7_filter_correctness
    [⟨"Analyst", ⟨⟨100, 1⟩, ⟨100, 1⟩, "RUR"⟩, "M", "2020-01-01"⟩,
     ⟨"Dev", ⟨⟨200, 1⟩, ⟨200, 1⟩, "RUR"⟩, "M", "2020-02-02"⟩,
     ⟨"Analyst", ⟨⟨50, 1⟩, ⟨50, 1⟩, "RUR"⟩, "P", "2021-02-02"⟩] "An" 2020
    ⟨[(2020, ⟨300, 2⟩), (2021, ⟨50, 1⟩)], [(2020, 2), (2021, 1)],
      [(2020, ⟨100, 1⟩), (2021, ⟨50, 1⟩)], [(2020, 1), (2021, 1)],
      [("M", ⟨300, 2⟩), ("P", ⟨50, 1⟩)], [("M", ⟨6667, 10000⟩), ("P", ⟨3333, 10000⟩)]⟩
    (by decide)
    ⟨⟨"Analyst", ⟨⟨100, 1⟩, ⟨100, 1⟩, "RUR"⟩, "M", "2020-01-01"⟩,
      List.mem_cons_self _ _, by decide, by decide⟩

theorem filter_map_form_val {K V : Type} (ks : List K) (g : K → V) (q : V → Bool) :
    (ks.map (fun k => (k, g k))).filter (fun p => q p.2)
      = (ks.filter (fun k => q (g k))).map (fun k => (k, g k)) := by
  induction ks with
  | nil => rfl
  | cons k ks ih =>
    rw [List.map_cons, List.filter_cons, List.filter_cons]
    cases h : q (g k) <;> simp [h, ih]

theorem filter_map_form_key {K V : Type} (ks : List K) (g : K → V) (q : K → Bool) :
    (ks.map (fun k => (k, g k))).filter (fun p => q p.1)
      = (ks.filter q).map (fun k => (k, g k)) := by
  induction ks with
  | nil => rfl
  | cons k ks ih =>
    rw [List.map_cons, List.filter_cons, List.filter_cons]
    cases h : q k <;> simp [h, ih]

/-- Spec-side `countByCity`: the number of records with city `c`. -/
def countByCityI (items : List Item) (c : String) : ℕ :=
  items.countP (fun it => decide (it.area_name = c))

/-- Spec-side city-key universe: cities in first-seen order. -/
def citiesI (items : List Item) : List String := firstSeenOrder (items.map (·.area_name))

/-- Spec-side §4.2 step 3b: cities with at least `floor(total/100)` records. -/
def allowedCitiesI (total : ℕ) (items : List Item) : List String :=
  (citiesI items).filter (fun c => decide (total / 100 ≤ countByCityI items c))

/-- Spec-side salary samples of a city, in stream order. -/
def salariesByCityI (items : List Item) (c : String) : List ℤ :=
  (items.filter (fun it => decide (it.area_name = c))).map (·.salary)

/-- §4.2 step 3c as the claim states it: rank all cities by count descending
(stable, first-seen tie-break), truncate to the top 10, convert counts to
4-decimal shares of the total, then filter to the allowed cities. -/
def cityCountsSpec (total : ℕ) (items : List Item) : List (String × Frac) :=
  let ranked := sortS (fun a b => b.2 ≤ a.2)
    ((citiesI items).map (fun c => (c, countByCityI items c)))
  ((ranked.take 10).map (fun q => (q.1, Frac.round4 ⟨(q.2 : ℤ), total⟩))).filter
    (fun q => (allowedCitiesI total items).contains q.1)

/-- §4.2 step 3d as the claim states it: rank ALL cities by salary mean
descending, truncate to the top 10, then filter to the allowed cities. -/
def citySalariesClaimed (total : ℕ) (items : List Item) :
    List (String × MeanRepresentation) :=
  let ranked := sortS (fun a b => b.2.mean.ble a.2.mean)
    ((citiesI items).map (fun c => (c, mFold (salariesByCityI items c))))
  (ranked.take 10).filter (fun q => (allowedCitiesI total items).contains q.1)

/-- The city-salary pipeline the code implements: filter to the allowed
cities FIRST, then rank by mean descending, then truncate to the top 10. -/
def citySalariesAmendedSpec (total : ℕ) (items : List Item) :
    List (String × MeanRepresentation) :=
  (sortS (fun a b => b.2.mean.ble a.2.mean)
    (((citiesI items).filter (fun c => (allowedCitiesI total items).contains c)).map
      (fun c => (c, mFold (salariesByCityI items c))))).take 10

theorem map_fst_map_form {K V : Type} (ks : List K) (g : K → V) :
    ((ks.map (fun k => (k, g k))).map (fun q => q.1)) = ks := by
  induction ks with
  | nil => rfl
  | cons k ks ih => simp [ih]

theorem allowed_of_map_form (t : ℕ) (items : List Item) :
    (((citiesI items).map (fun c => (c, countByCityI items c))).filter
        (fun q => t / 100 ≤ q.2)).map (fun q => q.1)
      = allowedCitiesI t items := by
  rw [filter_map_form_val (citiesI items) (fun c => countByCityI items c)
    (fun n => decide (t / 100 ≤ n))]
  rw [allowedCitiesI, map_fst_map_form]

theorem state_city_counts_spec (p : String) (items : List Item) :
    (items.foldl (applyItem p) GenState.empty).city_counts
      = (citiesI items).map (fun c => (c, countByCityI items c)) := by
  rw [state_city_counts, citiesI]
  refine List.map_congr_left (fun c _ => ?_)
  rw [countByCityI, List.countP_eq_length_filter]

theorem state_city_salaries_spec (p : String) (items : List Item) :
    (items.foldl (applyItem p) GenState.empty).city_salaries
      = (citiesI items).map (fun c => (c, mFold (salariesByCityI items c))) := by
  rw [state_city_salaries, citiesI]
  refine List.map_congr_left (fun c _ => ?_)
  rw [salariesByCityI]

/-- C3: the published city-count ranking is exactly: rank all cities by count
descending with stable first-seen tie-break, truncate to the top 10, convert
each count to a 4-decimal share of the total, and only then filter to the
threshold-passing cities. -/
theorem c3_city_counts_ranking (vs : List Vacancy) (p : String) (stats : Statistics)
    (items : List Item) (hok : Statistics.generate vs p = .ok stats)
    (hitems : mapE parseItem vs = .ok items) :
    stats.city_counts = cityCountsSpec vs.length items := by
  obtain ⟨items', hml, hstats⟩ := generate_ok_destruct hok
  rw [hitems] at hml
  cases hml
  subst hstats
  simp only [postProcess]
  rw [state_city_counts_spec, allowed_of_map_form]
  rw [cityCountsSpec]

/-- C2 amended: the published city-salary ranking filters to the
threshold-passing cities FIRST, then ranks the surviving cities by salary
mean descending (stable), then truncates to the top 10. -/
theorem c2_city_salaries_amended (vs : List Vacancy) (p : String) (stats : Statistics)
    (items : List Item) (hok : Statistics.generate vs p = .ok stats)
    (hitems : mapE parseItem vs = .ok items) :
    stats.city_salaries = citySalariesAmendedSpec vs.length items := by
  obtain ⟨items', hml, hstats⟩ := generate_ok_destruct hok
  rw [hitems] at hml
  cases hml
  subst hstats
  simp only [postProcess]
  rw [state_city_counts_spec, allowed_of_map_form, state_city_salaries_spec]
  rw [filter_map_form_key (citiesI items) (fun c => mFold (salariesByCityI items c))
    (fun c => (allowedCitiesI vs.length items).contains c)]
  rw [citySalariesAmendedSpec]

/-- A record with symmetric ruble salary `s` in city `city`. -/
def c2Vac (nm : String) (s : ℤ) (city : String) : Vacancy :=
  ⟨nm, ⟨⟨s, 1⟩, ⟨s, 1⟩, "RUR"⟩, city, "2020-01-01"⟩

/-- 200 records: city "X" has 1 record (below the 1% threshold of 2) with a
huge salary; cities "A".."J" have 18 records each with decreasing salaries;
city "K" has 19 records with the lowest salary. -/
def c2Input : List Vacancy :=
  [c2Vac "v" 1000 "X"] ++
  List.replicate 18 (c2Vac "v" 120 "A") ++ List.replicate 18 (c2Vac "v" 119 "B") ++
  List.replicate 18 (c2Vac "v" 118 "C") ++ List.replicate 18 (c2Vac "v" 117 "D") ++
  List.replicate 18 (c2Vac "v" 116 "E") ++ List.replicate 18 (c2Vac "v" 115 "F") ++
  List.replicate 18 (c2Vac "v" 114 "G") ++ List.replicate 18 (c2Vac "v" 113 "H") ++
  List.replicate 18 (c2Vac "v" 112 "I") ++ List.replicate 18 (c2Vac "v" 111 "J") ++
  List.replicate 19 (c2Vac "v" 110 "K")

set_option maxRecDepth 10000 in
/-- C2 counterexample: on `c2Input` the code's published city-salary ranking
(cities "A".."J") differs from the claimed truncate-then-filter ranking
(cities "A".."I": the disallowed top-salary city "X" consumes a top-10 slot
before being filtered out, dropping "J"). -/
theorem c2_city_salaries_counterexample :
    (Statistics.generate c2Input "Q").map (·.city_salaries) ≠
      (mapE parseItem c2Input).map (fun items => citySalariesClaimed c2Input.length items) := by
  decide

/-- Three records: two in city "M" (years 2020), one in city "P" (year 2021),
one record matching filter "An" per city. -/
def threeInput : List Vacancy :=
  [⟨"Analyst", ⟨⟨100, 1⟩, ⟨100, 1⟩, "RUR"⟩, "M", "2020-01-01"⟩,
   ⟨"Dev", ⟨⟨200, 1⟩, ⟨200, 1⟩, "RUR"⟩, "M", "2020-02-02"⟩,
   ⟨"Analyst", ⟨⟨50, 1⟩, ⟨50, 1⟩, "RUR"⟩, "P", "2021-02-02"⟩]

/-- The items the normalizer produces on `threeInput`. -/
def threeItems : List Item :=
  [⟨2020, 100, "Analyst", "M"⟩, ⟨2020, 200, "Dev", "M"⟩, ⟨2021, 50, "Analyst", "P"⟩]

/-- The aggregate the engine produces on `threeInput` with filter "An". -/
def threeStats : Statistics :=
  ⟨[(2020, ⟨300, 2⟩), (2021, ⟨50, 1⟩)], [(2020, 2), (2021, 1)],
    [(2020, ⟨100, 1⟩), (2021, ⟨50, 1⟩)], [(2020, 1), (2021, 1)],
    [("M", ⟨300, 2⟩), ("P", ⟨50, 1⟩)], [("M", ⟨6667, 10000⟩), ("P", ⟨3333, 10000⟩)]⟩

/-- C3 witness: the ranking equation instantiated on `threeInput`. -/
theorem c3_city_counts_witness :
    threeStats.city_counts = cityCountsSpec threeInput.length threeItems :=
  c3_city_counts_ranking threeInput "An" threeStats threeItems (by decide) (by decide)

/-- C2 witness: the amended pipeline equation instantiated on `threeInput`. -/
theorem c2_city_salaries_witness :
    threeStats.city_salaries = citySalariesAmendedSpec threeInput.length threeItems :=
  c2_city_salaries_amended threeInput "An" threeStats threeItems (by decide) (by decide)

theorem shard_foldlM (p : String) {f : List Vacancy} {sals : List ℤ}
    (h : List.Forall₂ (fun v s => recordSalary? v = .ok s) f sals) (a : ShardAcc) :
    ∃ acc, f.foldlM (shardStep p) a = .ok acc ∧
      acc.avg_salary = sals.foldl MeanRepresentation.add a.avg_salary ∧
      acc.count = a.count + f.length := by
  induction h generalizing a with
  | nil => exact ⟨a, rfl, rfl, rfl⟩
  | cons hr htl ih =>
    rename_i v s f' sals'
    have hstep : shardStep p a v = .ok
        { avg_salary := a.avg_salary.add s
          avg_salary_filtered :=
            if pyIn p v.name then a.avg_salary_filtered.add s else a.avg_salary_filtered
          count := a.count + 1
          count_filtered :=
            if pyIn p v.name then a.count_filtered + 1 else a.count_filtered } := by
      rw [shardStep, hr, exc_bind_ok]
    obtain ⟨acc, hfold, hsal, hcnt⟩ := ih
      { avg_salary := a.avg_salary.add s
        avg_salary_filtered :=
          if pyIn p v.name then a.avg_salary_filtered.add s else a.avg_salary_filtered
        count := a.count + 1
        count_filtered :=
          if pyIn p v.name then a.count_filtered + 1 else a.count_filtered }
    refine ⟨acc, ?_, ?_, ?_⟩
    · rw [List.foldlM, hstep, exc_bind_ok]
      exact hfold
    · rw [hsal, List.foldl_cons]
    · rw [hcnt, List.length_cons]
      show a.count + 1 + f'.length = a.count + (f'.length + 1)
      omega

theorem process_start_spec (p : String) {f : List Vacancy} {sals : List ℤ} {y : ℤ}
    (hne : f ≠ []) (hy : ∀ v ∈ f, recordYear? v = .ok y)
    (h : List.Forall₂ (fun v s => recordSalary? v = .ok s) f sals) :
    ∃ r, process_start p f = .ok r ∧ r.year = y ∧ r.count = f.length ∧
      r.avg_salary = (mFold sals).toInt := by
  cases hf : f with
  | nil => exact absurd hf hne
  | cons v f' =>
    subst hf
    obtain ⟨acc, hfold, hsal, hcnt⟩ := shard_foldlM p h ⟨.empty, .empty, 0, 0⟩
    refine ⟨⟨y, acc.avg_salary.toInt, acc.avg_salary_filtered.toInt, acc.count,
      acc.count_filtered⟩, ?_, rfl, ?_, ?_⟩
    · rw [process_start, hy v (List.mem_cons_self _ _), exc_bind_ok, hfold, exc_bind_ok]
    · rw [hcnt]
      show (⟨.empty, .empty, 0, 0⟩ : ShardAcc).count + (v :: f').length = (v :: f').length
      simp [MeanRepresentation.empty]
    · rw [hsal]
      rfl

theorem process_start_year (p : String) {f : List Vacancy} {r : FileSummary}
    (hr : process_start p f = .ok r) {y : ℤ}
    (hy : ∀ v ∈ f, recordYear? v = .ok y) (hne : f ≠ []) : r.year = y := by
  cases hf : f with
  | nil => exact absurd hf hne
  | cons v f' =>
    subst hf
    rw [process_start, hy v (List.mem_cons_self _ _), exc_bind_ok] at hr
    cases hfold : (v :: f').foldlM (shardStep p) ⟨.empty, .empty, 0, 0⟩ with
    | error e => rw [hfold, exc_bind_error] at hr; cases hr
    | ok acc =>
      rw [hfold, exc_bind_ok] at hr
      cases hr
      rfl

theorem mapE_append_ok {α β ε : Type} {f : α → Except ε β} {l₁ l₂ : List α}
    {b₁ b₂ : List β} (h₁ : mapE f l₁ = .ok b₁) (h₂ : mapE f l₂ = .ok b₂) :
    mapE f (l₁ ++ l₂) = .ok (b₁ ++ b₂) := by
  induction l₁ generalizing b₁ with
  | nil =>
    rw [mapE] at h₁
    cases h₁
    simpa using h₂
  | cons a l₁' ih =>
    cases hfa : f a with
    | error e => rw [mapE, hfa, exc_bind_error] at h₁; cases h₁
    | ok b =>
      rw [mapE, hfa, exc_bind_ok] at h₁
      cases hml : mapE f l₁' with
      | error e => rw [hml, exc_bind_error] at h₁; cases h₁
      | ok bs =>
        rw [hml, exc_bind_ok] at h₁
        cases h₁
        rw [List.cons_append, mapE, hfa, exc_bind_ok, ih hml, exc_bind_ok,
          List.cons_append]

theorem mapE_append_ok_split {α β ε : Type} {f : α → Except ε β} {l₁ l₂ : List α}
    {b : List β} (h : mapE f (l₁ ++ l₂) = .ok b) :
    ∃ b₁ b₂, b = b₁ ++ b₂ ∧ mapE f l₁ = .ok b₁ ∧ mapE f l₂ = .ok b₂ := by
  induction l₁ generalizing b with
  | nil => exact ⟨[], b, rfl, rfl, h⟩
  | cons a l₁' ih =>
    rw [List.cons_append] at h
    cases hfa : f a with
    | error e => rw [mapE, hfa, exc_bind_error] at h; cases h
    | ok x =>
      rw [mapE, hfa, exc_bind_ok] at h
      cases hml : mapE f (l₁' ++ l₂) with
      | error e => rw [hml, exc_bind_error] at h; cases h
      | ok bs =>
        rw [hml, exc_bind_ok] at h
        cases h
        obtain ⟨b₁, b₂, rfl, hb₁, hb₂⟩ := ih hml
        exact ⟨x :: b₁, b₂, rfl, by rw [mapE, hfa, exc_bind_ok, hb₁, exc_bind_ok], hb₂⟩

theorem mapE_flatten_ok_split {α β ε : Type} {f : α → Except ε β} {ls : List (List α)}
    {b : List β} (h : mapE f ls.flatten = .ok b) :
    ∃ bss, b = bss.flatten ∧ List.Forall₂ (fun l bs => mapE f l = .ok bs) ls bss := by
  induction ls generalizing b with
  | nil =>
    rw [List.flatten_nil, mapE] at h
    cases h
    exact ⟨[], rfl, List.Forall₂.nil⟩
  | cons l ls' ih =>
    rw [List.flatten_cons] at h
    obtain ⟨b₁, b₂, rfl, hb₁, hb₂⟩ := mapE_append_ok_split h
    obtain ⟨bss, rfl, hf₂⟩ := ih hb₂
    exact ⟨b₁ :: bss, rfl, List.Forall₂.cons hb₁ hf₂⟩

theorem forall₂_trans_left {α β γ : Type} {R : α → β → Prop} {S : α → γ → Prop}
    {T : β → γ → Prop} {l : List α} {l₁ : List β} {l₂ : List γ}
    (h1 : List.Forall₂ R l l₁) (h2 : List.Forall₂ S l l₂)
    (h : ∀ a b c, R a b → S a c → T b c) : List.Forall₂ T l₁ l₂ := by
  induction h1 generalizing l₂ with
  | nil => cases h2; exact List.Forall₂.nil
  | cons hr htl ih =>
    cases h2 with
    | cons hs htl' => exact List.Forall₂.cons (h _ _ _ hr hs) (ih htl')

theorem forall₂_extract4 {α β γ δ ε : Type} {R1 : α → β → Prop} {R2 : α → γ → Prop}
    {R3 : α → δ → Prop} {R4 : α → ε → Prop}
    {l : List α} {l1 : List β} {l2 : List γ} {l3 : List δ} {l4 : List ε}
    (h1 : List.Forall₂ R1 l l1) (h2 : List.Forall₂ R2 l l2)
    (h3 : List.Forall₂ R3 l l3) (h4 : List.Forall₂ R4 l l4)
    {b : β} (hb : b ∈ l1) :
    ∃ a c d e, R1 a b ∧ R2 a c ∧ R3 a d ∧ R4 a e ∧
      (e, b) ∈ l4.zip l1 ∧ (b, d) ∈ l1.zip l3 := by
  induction h1 generalizing l2 l3 l4 with
  | nil => cases hb
  | cons hr htl ih =>
    rename_i a₀ b₀ l' l1'
    cases h2 with
    | cons hs htl2 =>
      cases h3 with
      | cons ht htl3 =>
        cases h4 with
        | cons hu htl4 =>
          rcases List.mem_cons.mp hb with rfl | hmem
          · exact ⟨a₀, _, _, _, hr, hs, ht, hu,
              List.mem_cons_self _ _, List.mem_cons_self _ _⟩
          · obtain ⟨a, c, d, e, p1, p2, p3, p4, pz1, pz2⟩ := ih htl2 htl3 htl4 hmem
            exact ⟨a, c, d, e, p1, p2, p3, p4,
              List.mem_cons_of_mem _ pz1, List.mem_cons_of_mem _ pz2⟩

theorem flatten_filter_unique {itemss : List (List Item)} {ys : List ℤ}
    (h : List.Forall₂ (fun its y => ∀ it ∈ its, it.year = y) itemss ys)
    (hnd : ys.Nodup) {its : List Item} {y : ℤ}
    (hpair : (its, y) ∈ itemss.zip ys) :
    itemss.flatten.filter (fun it => decide (it.year = y)) = its := by
  induction h with
  | nil => cases hpair
  | cons hom htl ih =>
    rename_i its₀ y₀ itemss' ys'
    rcases List.nodup_cons.mp hnd with ⟨hy₀, hnd'⟩
    rw [List.zip_cons_cons] at hpair
    rw [List.flatten_cons, List.filter_append]
    rcases List.mem_cons.mp hpair with heq | hmem
    · cases heq
      have hl : its.filter (fun it => decide (it.year = y)) = its :=
        List.filter_eq_self.mpr (fun it hit => by simp [hom it hit])
      have hr : itemss'.flatten.filter (fun it => decide (it.year = y)) = [] := by
        rw [List.filter_eq_nil_iff]
        intro it hit
        obtain ⟨its', hits', hit'⟩ := List.mem_flatten.mp hit
        obtain ⟨y', hy', hom'⟩ := forall₂_mem_left htl hits'
        simp only [decide_eq_true_eq]
        rw [hom' it hit']
        exact fun e => hy₀ (e ▸ hy')
      rw [hl, hr, List.append_nil]
    · have hy' : y ∈ ys' := (List.of_mem_zip hmem).2
      have hl : its₀.filter (fun it => decide (it.year = y)) = [] := by
        rw [List.filter_eq_nil_iff]
        intro it hit
        simp only [decide_eq_true_eq]
        rw [hom it hit]
        exact fun e => hy₀ (e ▸ hy')
      rw [hl, List.nil_append]
      exact ih hnd' hmem

theorem lookupA_map_year {α : Type} {ys : List ℤ} {rs : List FileSummary}
    (h : List.Forall₂ (fun y r => r.year = y) ys rs) (hnd : ys.Nodup)
    {y : ℤ} {r : FileSummary} (hpair : (y, r) ∈ ys.zip rs) (F : FileSummary → α) :
    lookupA y (rs.map (fun q => (q.year, F q))) = some (F r) := by
  induction h with
  | nil => cases hpair
  | cons hr htl ih =>
    rename_i y₀ r₀ ys' rs'
    rcases List.nodup_cons.mp hnd with ⟨hy₀, hnd'⟩
    rw [List.zip_cons_cons] at hpair
    rw [List.map_cons]
    rcases List.mem_cons.mp hpair with heq | hmem
    · cases heq
      simp [lookupA, hr]
    · have hy' : y ∈ ys' := (List.of_mem_zip hmem).1
      have hne : r₀.year ≠ y := by
        rw [hr]
        exact fun e => hy₀ (e ▸ hy')
      simp only [lookupA, if_neg hne]
      exact ih hnd' hmem

theorem pyDictInsert_notMem {K V : Type} [DecidableEq K] {acc : List (K × V)} {q : K × V}
    (h : q.1 ∉ acc.map (fun p => p.1)) : pyDictInsert acc q = acc ++ [q] := by
  induction acc with
  | nil => rfl
  | cons p acc ih =>
    have hpq : p.1 ≠ q.1 := fun e => h (by rw [List.map_cons]; exact e ▸ List.mem_cons_self _ _)
    rw [pyDictInsert, if_neg hpq, List.cons_append,
      ih (fun hm => h (by rw [List.map_cons]; exact List.mem_cons_of_mem _ hm))]

theorem pyDict_of_nodup {K V : Type} [DecidableEq K] {l : List (K × V)}
    (h : (l.map (fun p => p.1)).Nodup) : pyDict l = l := by
  induction l using List.reverseRecOn with
  | nil => rfl
  | append_singleton l q ih =>
    rw [List.map_append] at h
    rcases List.nodup_append.mp h with ⟨h1, -, h3⟩
    rw [pyDict, List.foldl_append, List.foldl_cons, List.foldl_nil]
    rw [show List.foldl pyDictInsert [] l = pyDict l from rfl, ih h1]
    refine pyDictInsert_notMem (fun hm => ?_)
    exact h3 hm (by simp)

theorem lookupA_eq_none_iff {K V : Type} [DecidableEq K] {l : List (K × V)} {k : K} :
    lookupA k l = none ↔ k ∉ l.map (fun p => p.1) := by
  induction l with
  | nil => simp [lookupA]
  | cons p l ih =>
    by_cases hpk : p.1 = k
    · simp [lookupA, hpk]
    · simp only [lookupA, if_neg hpk, List.map_cons, List.mem_cons, ih]
      constructor
      · rintro hn (h1 | h2)
        · exact hpk h1.symm
        · exact hn h2
      · intro hn
        exact fun h2 => hn (Or.inr h2)

theorem lookupA_eq_some_iff {K V : Type} [DecidableEq K] {l : List (K × V)} {k : K} {v : V}
    (hnd : (l.map (fun p => p.1)).Nodup) :
    lookupA k l = some v ↔ (k, v) ∈ l := by
  induction l with
  | nil => simp [lookupA]
  | cons p l ih =>
    rw [List.map_cons] at hnd
    rcases List.nodup_cons.mp hnd with ⟨hp, hnd'⟩
    by_cases hpk : p.1 = k
    · subst hpk
      simp only [lookupA, if_pos rfl, List.mem_cons]
      constructor
      · intro h
        cases h
        exact Or.inl rfl
      · rintro (h1 | h2)
        · rw [← h1]
          simp [lookupA]
        · exact absurd (List.mem_map.mpr ⟨(p.1, v), h2, rfl⟩) hp
    · simp only [lookupA, if_neg hpk, List.mem_cons, ih hnd']
      constructor
      · exact Or.inr
      · rintro (h1 | h2)
        · exact absurd (congrArg Prod.fst h1).symm hpk
        · exact h2

theorem lookupA_perm {K V : Type} [DecidableEq K] {l l' : List (K × V)} (hp : l.Perm l')
    (hnd : (l.map (fun p => p.1)).Nodup) (k : K) : lookupA k l = lookupA k l' := by
  have hnd' : (l'.map (fun p => p.1)).Nodup := ((hp.map (fun p => p.1)).nodup_iff).mp hnd
  cases hl : lookupA k l with
  | none =>
    rw [lookupA_eq_none_iff] at hl
    have : k ∉ l'.map (fun p => p.1) := fun hm =>
      hl ((hp.map (fun p => p.1)).mem_iff.mpr hm)
    rw [eq_comm, lookupA_eq_none_iff]
    exact this
  | some v =>
    rw [lookupA_eq_some_iff hnd] at hl
    rw [eq_comm, lookupA_eq_some_iff hnd']
    exact hp.mem_iff.mp hl

theorem insertS_perm {α : Type} (le : α → α → Bool) (x : α) (l : List α) :
    (insertS le x l).Perm (x :: l) := by
  induction l with
  | nil => exact List.Perm.refl _
  | cons y ys ih =>
    rw [insertS]
    by_cases h : le y x
    · rw [if_pos h]
      exact (ih.cons y).trans (List.Perm.swap x y ys)
    · rw [if_neg h]

theorem sortS_perm {α : Type} (le : α → α → Bool) (l : List α) : (sortS le l).Perm l := by
  suffices h : ∀ acc : List α,
      (l.foldl (fun acc x => insertS le x acc) acc).Perm (acc ++ l) by
    simpa using h []
  induction l with
  | nil => intro acc; simp
  | cons x l ih =>
    intro acc
    rw [List.foldl_cons]
    refine (ih (insertS le x acc)).trans ?_
    refine (List.Perm.append_right l ((insertS_perm le x acc))).trans ?_
    rw [show (x :: acc) ++ l = x :: (acc ++ l) from rfl]
    exact List.perm_middle.symm

theorem mp_main_ok_destruct {p : String} {files : List (List Vacancy)} {mp : MpResult}
    (h : mp_main p files = .ok mp) :
    ∃ rs, mapE (process_start p) files = .ok rs ∧
      mp = ⟨pyDict ((sortS (fun a b => a.year ≤ b.year) rs).map
              (fun r => (r.year, r.avg_salary))),
            pyDict ((sortS (fun a b => a.year ≤ b.year) rs).map
              (fun r => (r.year, r.avg_salary_filtered))),
            pyDict ((sortS (fun a b => a.year ≤ b.year) rs).map
              (fun r => (r.year, r.count))),
            pyDict ((sortS (fun a b => a.year ≤ b.year) rs).map
              (fun r => (r.year, r.count_filtered)))⟩ := by
  unfold mp_main at h
  cases hml : mapE (process_start p) files with
  | error e => rw [hml, exc_bind_error] at h; cases h
  | ok rs =>
    rw [hml, exc_bind_ok] at h
    cases h
    exact ⟨rs, rfl, rfl⟩

theorem forall₂_year_map {ys : List ℤ} {rs : List FileSummary}
    (h : List.Forall₂ (fun y r => r.year = y) ys rs) :
    rs.map (fun r => r.year) = ys := by
  induction h with
  | nil => rfl
  | cons hr htl ih => rw [List.map_cons, hr, ih]

theorem mp_lookup {α : Type} {ys : List ℤ} {rs : List FileSummary}
    (hyrAll : List.Forall₂ (fun y r => r.year = y) ys rs) (hnd : ys.Nodup)
    {y : ℤ} {r : FileSummary} (hz : (y, r) ∈ ys.zip rs) (F : FileSummary → α) :
    lookupA y (pyDict ((sortS (fun a b => a.year ≤ b.year) rs).map
      (fun q => (q.year, F q)))) = some (F r) := by
  have hperm : (sortS (fun a b => a.year ≤ b.year) rs).Perm rs := sortS_perm _ _
  have hpermMap : ((sortS (fun a b => a.year ≤ b.year) rs).map
      (fun q => (q.year, F q))).Perm (rs.map (fun q => (q.year, F q))) :=
    hperm.map _
  have hkeys_rs : ((rs.map (fun q => (q.year, F q))).map (fun p => p.1)) = ys := by
    rw [List.map_map]
    exact forall₂_year_map hyrAll
  have hnd_rs : ((rs.map (fun q => (q.year, F q))).map (fun p => p.1)).Nodup := by
    rw [hkeys_rs]; exact hnd
  have hnd_sorted : (((sortS (fun a b => a.year ≤ b.year) rs).map
      (fun q => (q.year, F q))).map (fun p => p.1)).Nodup :=
    ((hpermMap.map (fun p => p.1)).nodup_iff).mpr hnd_rs
  rw [pyDict_of_nodup hnd_sorted]
  rw [lookupA_perm hpermMap hnd_sorted y]
  exact lookupA_map_year hyrAll hnd hz F

/-- C1 amended: the multiprocessing reducer performs NO merge of raw
accumulators — it finalizes each file independently (truncated per-file mean)
and keys the results by the file's (first record's) year; its published
per-year salary value and count agree with the single-threaded engine
exactly when the files partition the records by year (each year in one file,
as the year-splitter produces): then the mp salary value is the truncation of
the engine's per-year mean and the counts coincide. -/
theorem c1_partitioned_reducer_amended (p : String) (files : List (List Vacancy))
    (ys : List ℤ) (salss : List (List ℤ))
    (hfy : List.Forall₂ (fun f y => f ≠ [] ∧ ∀ v ∈ f, recordYear? v = .ok y) files ys)
    (hnd : ys.Nodup)
    (hsals : List.Forall₂ (fun f sals => mapE recordSalary? f = .ok sals) files salss)
    (stats : Statistics) (mp : MpResult)
    (hok : Statistics.generate files.flatten p = .ok stats)
    (hmp : mp_main p files = .ok mp) :
    ∀ y ∈ ys,
      lookupA y mp.salary_dynamic
          = (lookupA y stats.salary_dynamic).map MeanRepresentation.toInt ∧
        lookupA y mp.count_dynamic = lookupA y stats.count_dynamic := by
  intro y hy
  obtain ⟨rs, hrs, hmpv⟩ := mp_main_ok_destruct hmp
  obtain ⟨items, hitems, hstats⟩ := generate_ok_destruct hok
  obtain ⟨itemss, rfl, hitss⟩ := mapE_flatten_ok_split hitems
  have hrsF := (mapE_ok_iff _ _ _).mp hrs
  obtain ⟨f, sals, r, its, hR1, hR2, hR3, hR4, hzIts, hzRs⟩ :=
    forall₂_extract4 hfy hsals hrsF hitss hy
  obtain ⟨hne, hyf⟩ := hR1
  have hsalsf : List.Forall₂ (fun v s => recordSalary? v = .ok s) f sals :=
    (mapE_ok_iff _ _ _).mp hR2
  obtain ⟨r', hr', hry, hrc, hravg⟩ := process_start_spec p hne hyf hsalsf
  rw [hR3] at hr'
  cases hr'
  have hitsF : List.Forall₂ (fun v it => parseItem v = .ok it) f its :=
    (mapE_ok_iff _ _ _).mp hR4
  have homAll : List.Forall₂ (fun its' y' => ∀ it ∈ its', it.year = y') itemss ys := by
    refine forall₂_trans_left hitss hfy (fun f' its' y' hpf hfy' => ?_)
    intro it hit
    obtain ⟨v, hv, hvit⟩ := forall₂_mem_right ((mapE_ok_iff _ _ _).mp hpf) hit
    have h1 := (parseItem_ok_fields hvit).2.2.1
    rw [hfy'.2 v hv] at h1
    cases h1
    rfl
  have hfilter : itemss.flatten.filter (fun it => decide (it.year = y)) = its :=
    flatten_filter_unique homAll hnd hzIts
  have hmap : its.map (·.salary) = sals := by
    refine forall₂_forall₂_map hitsF hsalsf _ (fun v it s hvit hvs => ?_)
    have h1 := (parseItem_ok_fields hvit).2.2.2
    rw [hvs] at h1
    cases h1
    rfl
  have hits_ne : its ≠ [] := by
    intro h0
    subst h0
    cases hitsF
    exact hne rfl
  have hymem : y ∈ firstSeenOrder (itemss.flatten.map (·.year)) := by
    rw [firstSeenOrder_mem]
    obtain ⟨it₀, hit₀⟩ : ∃ it, it ∈ its := by
      cases its with
      | nil => exact absurd rfl hits_ne
      | cons a l => exact ⟨a, List.mem_cons_self _ _⟩
    have hit₀fl : it₀ ∈ itemss.flatten :=
      List.mem_flatten.mpr ⟨its, (List.of_mem_zip hzIts).1, hit₀⟩
    have hyr : it₀.year = y := by
      have hmemf : it₀ ∈ itemss.flatten.filter (fun it => decide (it.year = y)) := by
        rw [hfilter]; exact hit₀
      exact of_decide_eq_true (List.mem_filter.mp hmemf).2
    exact List.mem_map.mpr ⟨it₀, hit₀fl, hyr⟩
  subst hstats
  have hsd : lookupA y (postProcess (files.flatten).length
      (itemss.flatten.foldl (applyItem p) GenState.empty)).salary_dynamic
        = some (mFold sals) := by
    rw [postProcess_salary_dynamic, state_salary_dynamic, lookupA_map_of_mem _ hymem,
      hfilter, hmap]
  have hcd : lookupA y (postProcess (files.flatten).length
      (itemss.flatten.foldl (applyItem p) GenState.empty)).count_dynamic
        = some f.length := by
    rw [postProcess_count_dynamic, state_count_dynamic, lookupA_map_of_mem _ hymem, hfilter,
      hitsF.length_eq]
  have hyrAll : List.Forall₂ (fun y' r' => r'.year = y') ys rs :=
    forall₂_trans_left hfy hrsF (fun f' y' r' h1 h2 => process_start_year p h2 h1.2 h1.1)
  subst hmpv
  constructor
  · have hml := mp_lookup hyrAll hnd hzRs (fun q => q.avg_salary)
    rw [show (⟨pyDict ((sortS (fun a b => a.year ≤ b.year) rs).map
          (fun r => (r.year, r.avg_salary))),
        pyDict ((sortS (fun a b => a.year ≤ b.year) rs).map
          (fun r => (r.year, r.avg_salary_filtered))),
        pyDict ((sortS (fun a b => a.year ≤ b.year) rs).map
          (fun r => (r.year, r.count))),
        pyDict ((sortS (fun a b => a.year ≤ b.year) rs).map
          (fun r => (r.year, r.count_filtered)))⟩ : MpResult).salary_dynamic
      = pyDict ((sortS (fun a b => a.year ≤ b.year) rs).map
          (fun r => (r.year, r.avg_salary))) from rfl]
    rw [hml, hsd]
    simp only [Option.map]
    rw [hravg]
  · have hml := mp_lookup hyrAll hnd hzRs (fun q => q.count)
    rw [show (⟨pyDict ((sortS (fun a b => a.year ≤ b.year) rs).map
          (fun r => (r.year, r.avg_salary))),
        pyDict ((sortS (fun a b => a.year ≤ b.year) rs).map
          (fun r => (r.year, r.avg_salary_filtered))),
        pyDict ((sortS (fun a b => a.year ≤ b.year) rs).map
          (fun r => (r.year, r.count))),
        pyDict ((sortS (fun a b => a.year ≤ b.year) rs).map
          (fun r => (r.year, r.count_filtered)))⟩ : MpResult).count_dynamic
      = pyDict ((sortS (fun a b => a.year ≤ b.year) rs).map
          (fun r => (r.year, r.count))) from rfl]
    rw [hml, hcd, hrc]

/-- A record with symmetric ruble salary `s` in city "M", published at
`pub`. -/
def c1Vac (s : ℤ) (pub : String) : Vacancy := ⟨"v", ⟨⟨s, 1⟩, ⟨s, 1⟩, "RUR"⟩, "M", pub⟩

/-- Two one-record files of the SAME year 2022: the case the claimed merge
would handle and the code does not. -/
def c1Files : List (List Vacancy) := [[c1Vac 10 "2022-01-01"], [c1Vac 20 "2022-02-02"]]

/-- C1 counterexample: on two files of the same year, the multiprocessing
reducer reports salary 20 and count 1 for 2022 (the later file's finalized
value silently overwrites the earlier one — no accumulator merge), while
single-shard processing of the union reports truncated mean 15 and count 2. -/
theorem c1_no_merge_counterexample :
    (mp_main "Q" c1Files).map (fun m => m.salary_dynamic) = .ok [(2022, 20)] ∧
    (mp_main "Q" c1Files).map (fun m => m.count_dynamic) = .ok [(2022, 1)] ∧
    (Statistics.generate c1Files.flatten "Q").map
        (fun s => (lookupA 2022 s.salary_dynamic).map MeanRepresentation.toInt)
      = .ok (some 15) ∧
    (Statistics.generate c1Files.flatten "Q").map (fun s => lookupA 2022 s.count_dynamic)
      = .ok (some 2) ∧
    (20 : ℤ) ≠ 15 ∧ (1 : ℕ) ≠ 2 := by
  decide

/-- Two one-record files with distinct years (the partition the year-splitter
produces). -/
def c1WFiles : List (List Vacancy) := [[c1Vac 10 "2021-01-01"], [c1Vac 20 "2022-02-02"]]

/-- The single-threaded aggregate on the union of `c1WFiles`. -/
def c1WStats : Statistics :=
  ⟨[(2021, ⟨10, 1⟩), (2022, ⟨20, 1⟩)], [(2021, 1), (2022, 1)], [(2022, ⟨0, 0⟩)], [(2022, 0)],
    [("M", ⟨30, 2⟩)], [("M", ⟨10000, 10000⟩)]⟩

/-- The multiprocessing result on `c1WFiles`. -/
def c1WMp : MpResult :=
  ⟨[(2021, 10), (2022, 20)], [(2021, 0), (2022, 0)], [(2021, 1), (2022, 1)],
    [(2021, 0), (2022, 0)]⟩

/-- C1 witness: the amended agreement instantiated on the distinct-year file
pair, at year 2021. -/
theorem c1_partitioned_reducer_witness :
    lookupA (2021 : ℤ) c1WMp.salary_dynamic
        = (lookupA (2021 : ℤ) c1WStats.salary_dynamic).map MeanRepresentation.toInt ∧
      lookupA (2021 : ℤ) c1WMp.count_dynamic = lookupA (2021 : ℤ) c1WStats.count_dynamic :=
  c1_partitioned_reducer_amended "Q" c1WFiles [2021, 2022] [[10], [20]]
    (List.Forall₂.cons ⟨by decide, by decide⟩
      (List.Forall₂.cons ⟨by decide, by decide⟩ List.Forall₂.nil))
    (by decide)
    (List.Forall₂.cons (by decide) (List.Forall₂.cons (by decide) List.Forall₂.nil))
    c1WStats c1WMp (by decide) (by decide) 2021 (by decide)
